import Mathlib

/-!
Verification of the cuda-gdb coordinate-set / rangemap core against its
specification.  The definitions below are a shallow embedding of
`src/gdb/cuda/cuda-rangemap.h` and `src/gdb/cuda/cuda-coord-set.h`.
Machine addresses (`CORE_ADDR`, `size_t`, both 64-bit unsigned) are
modelled as `Nat` with an explicit `% 2 ^ 64` at the one place arithmetic
is performed (`end = start + size` in `cuda_rangemap::add`).
-/

namespace CudaGdb

/-! ## Interval map (`cuda_rangemap.h`)

The C++ container is `std::map<CORE_ADDR, std::pair<CORE_ADDR, T>>`:
a key-sorted map from range start to (range end, value).  We model it as a
start-sorted association list of `(start, end, value)` triples.  All maps
built by the embedded operations keep the list sorted by start, mirroring
the `std::map` ordering invariant. -/

abbrev RangeMap (T : Type) := List (Nat × Nat × T)

/-- The greatest-key entry with start strictly below `bound`.  This is the
result of `m_ranges.lower_bound (end)` followed by the `it != begin`
check and `--it` in `cuda_rangemap::add` (src/gdb/cuda/cuda-rangemap.h:50-56). -/
def lastStartBefore {T : Type} (bound : Nat) : RangeMap T → Option (Nat × Nat × T)
  | [] => none
  | e :: rest =>
    if e.1 < bound then
      match lastStartBefore bound rest with
      | some r => some r
      | none => some e
    else lastStartBefore bound rest

/-- The greatest-key entry with start at or below `addr`.  This is the
result of `m_ranges.upper_bound (addr)` followed by the `it == cbegin`
check and `--it` in `cuda_rangemap::find` (src/gdb/cuda/cuda-rangemap.h:94-101). -/
def lastStartLe {T : Type} (addr : Nat) : RangeMap T → Option (Nat × Nat × T)
  | [] => none
  | e :: rest =>
    if e.1 ≤ addr then
      match lastStartLe addr rest with
      | some r => some r
      | none => some e
    else lastStartLe addr rest

/-- `m_ranges[start] = std::make_pair (end, value)`: sorted insert-or-replace
by the start key (std::map::operator[] semantics). -/
def insertRange {T : Type} (start endE : Nat) (v : T) : RangeMap T → RangeMap T
  | [] => [(start, endE, v)]
  | e :: rest =>
    if start < e.1 then (start, endE, v) :: e :: rest
    else if start = e.1 then (start, endE, v) :: rest
    else e :: insertRange start endE v rest

/-- `m_ranges.erase (it)` where `it` points at the entry with the given
start key (keys are unique in a `std::map`). -/
def eraseRange {T : Type} (key : Nat) : RangeMap T → RangeMap T
  | [] => []
  | e :: rest => if e.1 = key then rest else e :: eraseRange key rest

/-- `cuda_rangemap::add` (src/gdb/cuda/cuda-rangemap.h:40-65).
Returns `none` exactly when the `gdb_assert (prev_end <= start)` defensive
assertion fires, and `some` of the updated map otherwise.
`end = start + size` wraps modulo `2 ^ 64` as the C++ unsigned addition does. -/
def rangemap_add {T : Type} (start size : Nat) (v : T) (m : RangeMap T) :
    Option (RangeMap T) :=
  match lastStartBefore ((start + size) % 2 ^ 64) m with
  | none => some (insertRange start ((start + size) % 2 ^ 64) v m)
  | some e =>
    if e.2.1 ≤ start then some (insertRange start ((start + size) % 2 ^ 64) v m)
    else none

/-- `cuda_rangemap::find` (src/gdb/cuda/cuda-rangemap.h:90-113).
Note the containment test is `if (end < addr) return cend ()`, so an entry
is returned even when `addr` equals the (supposedly exclusive) range end. -/
def rangemap_find {T : Type} (addr : Nat) (m : RangeMap T) :
    Option (Nat × Nat × T) :=
  match lastStartLe addr m with
  | none => none
  | some e => if e.2.1 < addr then none else some e

/-- `cuda_rangemap::get` (src/gdb/cuda/cuda-rangemap.h:76-85). -/
def rangemap_get {T : Type} (addr : Nat) (m : RangeMap T) : Option T :=
  (rangemap_find addr m).map (fun e => e.2.2)

/-- `cuda_rangemap::remove_range` (src/gdb/cuda/cuda-rangemap.h:67-74). -/
def remove_range {T : Type} (addr : Nat) (m : RangeMap T) : RangeMap T :=
  match rangemap_find addr m with
  | none => m
  | some e => eraseRange e.1 m

/-- Does the half-open range `[start, endE)` intersect the stored range `e`?
Two half-open ranges `[a, b)` and `[c, d)` have a common point iff
`max a c < min b d`. -/
def overlapsEntry {T : Type} (start endE : Nat) (e : Nat × Nat × T) : Bool :=
  decide (max start e.1 < min endE e.2.1)

/-- The invariant of the interval map: entries sorted by start, every range
nonempty (`start < end`), and consecutive ranges disjoint (`end ≤ next start`),
which together give pairwise disjointness. -/
def rangeMapInv {T : Type} : RangeMap T → Bool
  | [] => true
  | [e] => decide (e.1 < e.2.1)
  | e :: f :: rest =>
    decide (e.1 < e.2.1) && decide (e.2.1 ≤ f.1) && rangeMapInv (f :: rest)

theorem rangeMapInv_tail {T : Type} {e : Nat × Nat × T} {rest : RangeMap T}
    (h : rangeMapInv (e :: rest) = true) : rangeMapInv rest = true := by
  cases rest with
  | nil => rfl
  | cons f rest' => simp only [rangeMapInv, Bool.and_eq_true] at h; exact h.2

theorem rangeMapInv_mem {T : Type} {m : RangeMap T} {e : Nat × Nat × T}
    (h : rangeMapInv m = true) (hm : e ∈ m) : e.1 < e.2.1 := by
  induction m with
  | nil => cases hm
  | cons f rest ih =>
    rcases List.mem_cons.mp hm with rfl | hm'
    · cases rest with
      | nil => simpa [rangeMapInv] using h
      | cons g rest' =>
        simp only [rangeMapInv, Bool.and_eq_true, decide_eq_true_eq] at h
        exact h.1.1
    · exact ih (rangeMapInv_tail h) hm'

theorem rangeMapInv_head_le {T : Type} {e r : Nat × Nat × T} {rest : RangeMap T}
    (h : rangeMapInv (e :: rest) = true) (hr : r ∈ rest) : e.2.1 ≤ r.1 := by
  induction rest generalizing e with
  | nil => cases hr
  | cons f rest' ih =>
    simp only [rangeMapInv, Bool.and_eq_true, decide_eq_true_eq] at h
    rcases List.mem_cons.mp hr with rfl | hr'
    · exact h.1.2
    · exact le_trans (le_of_lt (lt_of_le_of_lt h.1.2
        (rangeMapInv_mem h.2 (List.mem_cons_self _ _)))) (ih h.2 hr')

theorem lastStartBefore_some {T : Type} {bound : Nat} {m : RangeMap T}
    {e : Nat × Nat × T} (h : lastStartBefore bound m = some e) :
    e ∈ m ∧ e.1 < bound := by
  induction m with
  | nil => simp [lastStartBefore] at h
  | cons f rest ih =>
    simp only [lastStartBefore] at h
    by_cases hf : f.1 < bound
    · rw [if_pos hf] at h
      cases hrest : lastStartBefore bound rest with
      | none =>
        rw [hrest] at h
        cases h
        exact ⟨List.mem_cons_self _ _, hf⟩
      | some r =>
        rw [hrest] at h
        cases h
        obtain ⟨hm, hb⟩ := ih hrest
        exact ⟨List.mem_cons_of_mem _ hm, hb⟩
    · rw [if_neg hf] at h
      obtain ⟨hm, hb⟩ := ih h
      exact ⟨List.mem_cons_of_mem _ hm, hb⟩

/-- If some stored range starts below `bound` and its end exceeds `start`,
then the candidate range that `add`'s disjointness check inspects also has
its end above `start` (so the assertion fires).  Uses the sortedness and
disjointness of the map. -/
theorem lastStartBefore_overlap {T : Type} {m : RangeMap T} {f : Nat × Nat × T}
    {bound start : Nat} (hinv : rangeMapInv m = true) (hf : f ∈ m)
    (hfb : f.1 < bound) (hfs : start < f.2.1) :
    ∃ e, lastStartBefore bound m = some e ∧ start < e.2.1 := by
  induction m with
  | nil => cases hf
  | cons g rest ih =>
    rcases List.mem_cons.mp hf with rfl | hf'
    · simp only [lastStartBefore, if_pos hfb]
      cases hrest : lastStartBefore bound rest with
      | none => exact ⟨f, rfl, hfs⟩
      | some r =>
        refine ⟨r, rfl, ?_⟩
        obtain ⟨hrm, _⟩ := lastStartBefore_some hrest
        have h1 : f.2.1 ≤ r.1 := rangeMapInv_head_le hinv hrm
        have h2 : r.1 < r.2.1 :=
          rangeMapInv_mem (rangeMapInv_tail hinv) hrm
        omega
    · obtain ⟨e, he, hes⟩ := ih (rangeMapInv_tail hinv) hf'
      simp only [lastStartBefore]
      by_cases hg : g.1 < bound
      · rw [if_pos hg, he]
        exact ⟨e, rfl, hes⟩
      · rw [if_neg hg]
        exact ⟨e, he, hes⟩

/-- C1.  The spec claims `get` is a half-open point-containment query:
after `add(0,10,V)`, `get(9)` returns `V` and `get(10)` returns absent.
The code's own comments state the range end is exclusive, but
`cuda_rangemap::find` tests `if (end < addr)` instead of `end <= addr`
(src/gdb/cuda/cuda-rangemap.h:108), so `get(10)` returns `V` as well:
the code contradicts both the spec and its own documentation at the
range-end boundary. -/
theorem rangemap_get_at_range_end_bug :
    rangemap_add 0 10 (7 : Nat) [] = some [(0, 10, 7)]
    ∧ rangemap_get 9 [(0, 10, (7 : Nat))] = some 7
    ∧ rangemap_get 10 [(0, 10, (7 : Nat))] = some 7 := by
  refine ⟨?_, by decide, by decide⟩
  simp [rangemap_add, lastStartBefore, insertRange]

/-- C6.  The concrete removal scenario of the spec holds: after
`add(0,10,V)` and `remove(5)`, `get(5)` is absent and `add(0,10,V2)`
succeeds again.  But the general claim that `remove(addr)` is a no-op when
no range contains `addr` fails at `addr = 10`: because `find` accepts
`addr == end` (src/gdb/cuda/cuda-rangemap.h:108), `remove_range(10)`
erases `[0,10)` even though `10` is outside the half-open range. -/
theorem rangemap_remove_at_range_end_bug :
    remove_range 5 [(0, 10, (7 : Nat))] = []
    ∧ rangemap_get 5 (remove_range 5 [(0, 10, (7 : Nat))]) = none
    ∧ rangemap_add 0 10 (8 : Nat) (remove_range 5 [(0, 10, (7 : Nat))])
        = some [(0, 10, 8)]
    ∧ remove_range 10 [(0, 10, (7 : Nat))] = [] := by
  refine ⟨by decide, by decide, ?_, by decide⟩
  simp [remove_range, rangemap_find, lastStartLe, rangemap_add,
    lastStartBefore, insertRange, eraseRange]

/-- C3 counterexample.  The claim states `add` asserts if and only if the
new half-open range overlaps an existing range.  At the concrete input
`add(5, 0, V)` on a map holding `[0,10)`, the new range `[5,5)` is empty
and overlaps nothing, yet the disjointness assertion fires: the
"only if" direction of the claim is false as stated. -/
theorem rangemap_add_empty_range_asserts :
    rangemap_add 5 0 (1 : Nat) [(0, 10, 2)] = none
    ∧ ([(0, 10, (2 : Nat))].all
        (fun e => !overlapsEntry 5 ((5 + 0) % 2 ^ 64) e)) = true := by
  constructor
  · simp [rangemap_add, lastStartBefore]
  · decide

/-- C3 (amended).  For a nonempty inserted range (`0 < size`, no 64-bit
wrap-around) on a map satisfying the disjoint-sorted-ranges invariant,
`cuda_rangemap::add` raises the defensive assertion if and only if the new
half-open range `[start, start+size)` overlaps an existing range; in the
concrete scenarios, adding `[10,20)` after `[0,10)` succeeds and adding
`[5,15)` after `[0,10)` asserts. -/
theorem rangemap_add_assert_iff_overlap :
    (∀ (T : Type) (m : RangeMap T) (start size : Nat) (v : T),
      rangeMapInv m = true → 0 < size → start + size < 2 ^ 64 →
      (rangemap_add start size v m = none
        ↔ ∃ e ∈ m, overlapsEntry start (start + size) e = true))
    ∧ rangemap_add 10 10 (5 : Nat) [(0, 10, 3)] = some [(0, 10, 3), (10, 20, 5)]
    ∧ rangemap_add 5 10 (5 : Nat) [(0, 10, 3)] = none := by
  refine ⟨?_, ?_, ?_⟩
  · intro T m start size v hinv hsz hw
    have hmod : (start + size) % 2 ^ 64 = start + size := Nat.mod_eq_of_lt hw
    constructor
    · intro h
      cases hlast : lastStartBefore (start + size) m with
      | none =>
        rw [← hmod] at hlast
        simp only [rangemap_add, hlast] at h
        exact Option.noConfusion h
      | some e =>
        by_cases he : e.2.1 ≤ start
        · rw [← hmod] at hlast
          simp only [rangemap_add, hlast, if_pos he] at h
          exact Option.noConfusion h
        · obtain ⟨hm, hb⟩ := lastStartBefore_some hlast
          have hne : e.1 < e.2.1 := rangeMapInv_mem hinv hm
          refine ⟨e, hm, ?_⟩
          simp only [overlapsEntry, decide_eq_true_eq]
          omega
    · rintro ⟨f, hf, hov⟩
      simp only [overlapsEntry, decide_eq_true_eq] at hov
      have hfb : f.1 < start + size := by omega
      have hfs : start < f.2.1 := by omega
      obtain ⟨e, he, hes⟩ := lastStartBefore_overlap hinv hf hfb hfs
      rw [← hmod] at he
      simp only [rangemap_add, he, if_neg (by omega : ¬ e.2.1 ≤ start)]
  · simp [rangemap_add, lastStartBefore, insertRange]
  · simp [rangemap_add, lastStartBefore]

/-- Witness for the amended C3 at a concrete input: on the map `{[0,10)}`
the insertion of `[5,15)` asserts, and the theorem's overlap
characterisation confirms an overlap exists. -/
theorem rangemap_add_assert_iff_overlap_witness :
    rangemap_add 5 10 (7 : Nat) [(0, 10, 3)] = none
      ↔ ∃ e ∈ [(0, 10, (3 : Nat))], overlapsEntry 5 (5 + 10) e = true :=
  rangemap_add_assert_iff_overlap.1 Nat [(0, 10, 3)] 5 10 7
    (by decide) (by decide) (by decide)

/-! ## Coordinates (`cuda-coord-set.h` and the spec's Coordinate data type)

The `cuda_coords` class, `cuda_coord_equals` and `cuda_coord_distance` live
in `cuda-coords.h`, which is not part of the provided sources; they are
modelled from the spec (sections 3 and 4.1): each field is independently a
concrete unsigned value/triple or a reserved sentinel.  We model the
sentinels (`CUDA_WILDCARD`, `CUDA_INVALID`, and for 3-D fields also
`CUDA_IGNORE_DIM`) as constructors. -/

/-- `CuDim3`: a triple of unsigned indices. -/
structure CuDim3 where
  x : Nat
  y : Nat
  z : Nat
deriving DecidableEq, Repr

/-- A scalar coordinate field: a concrete value, `CUDA_WILDCARD`, or
`CUDA_INVALID`.  Modelled from the spec: fields are "each either a concrete
unsigned value/triple or a reserved wildcard sentinel", with a distinct
"invalid" sentinel used for unresolved logical identity. -/
inductive CoordVal where
  | wildcard
  | invalid
  | val (n : Nat)
deriving DecidableEq, Repr

/-- A 3-D coordinate field with the `CUDA_WILDCARD_DIM`, `CUDA_INVALID_DIM`
and `CUDA_IGNORE_DIM` sentinels. -/
inductive CoordDim where
  | wildcard
  | invalid
  | ignore
  | val (d : CuDim3)
deriving DecidableEq, Repr

/-- Physical half of a `cuda_coords`: device, SM, warp, lane. -/
structure CudaPhysical where
  dev : CoordVal
  sm : CoordVal
  wp : CoordVal
  ln : CoordVal
deriving DecidableEq, Repr

/-- Logical half of a `cuda_coords`: kernel id, grid id, cluster, block,
thread. -/
structure CudaLogical where
  kernelId : CoordVal
  gridId : CoordVal
  clusterIdx : CoordDim
  blockIdx : CoordDim
  threadIdx : CoordDim
deriving DecidableEq, Repr

/-- `cuda_coords`: the pair of physical and logical coordinates. -/
structure CudaCoords where
  physical : CudaPhysical
  logical : CudaLogical
deriving DecidableEq, Repr

/-- Modelled from the spec: filter matching, "a wildcard field matches any
concrete value when matching a filter"; otherwise fields must be equal. -/
def cuda_coord_equals (filterField v : CoordVal) : Bool :=
  filterField == CoordVal.wildcard || filterField == v

/-- Modelled from the spec: filter matching for 3-D fields. -/
def cuda_coord_equals_dim (filterField v : CoordDim) : Bool :=
  filterField == CoordDim.wildcard || filterField == v

/-- Modelled from the spec: an implementation-defined total order on a
scalar field, ordering concrete values numerically (sentinels, which are
large reserved unsigned values in the implementation, come after all
concrete values). -/
def CoordVal.rank : CoordVal → Nat
  | .val _ => 0
  | .wildcard => 1
  | .invalid => 2

def CoordVal.ltb : CoordVal → CoordVal → Bool
  | .val a, .val b => decide (a < b)
  | a, b => decide (a.rank < b.rank)

/-- Lexicographic order on a 3-D triple. -/
def dim3Ltb (a b : CuDim3) : Bool :=
  decide (a.x < b.x) || (a.x == b.x
    && (decide (a.y < b.y) || (a.y == b.y && decide (a.z < b.z))))

def CoordDim.rank : CoordDim → Nat
  | .val _ => 0
  | .wildcard => 1
  | .invalid => 2
  | .ignore => 3

def CoordDim.ltb : CoordDim → CoordDim → Bool
  | .val a, .val b => dim3Ltb a b
  | a, b => decide (a.rank < b.rank)

/-- Modelled from the spec: sequential order is a "lexicographic compare of
the natural field tuple (physical: device, sm, warp, lane)". -/
def physLtb (a b : CudaPhysical) : Bool :=
  CoordVal.ltb a.dev b.dev || (a.dev == b.dev
    && (CoordVal.ltb a.sm b.sm || (a.sm == b.sm
      && (CoordVal.ltb a.wp b.wp || (a.wp == b.wp
        && CoordVal.ltb a.ln b.ln)))))

/-- Modelled from the spec: sequential order for the logical tuple
(kernel id, grid id, cluster, block, thread). -/
def logLtb (a b : CudaLogical) : Bool :=
  CoordVal.ltb a.kernelId b.kernelId || (a.kernelId == b.kernelId
    && (CoordVal.ltb a.gridId b.gridId || (a.gridId == b.gridId
      && (CoordDim.ltb a.clusterIdx b.clusterIdx || (a.clusterIdx == b.clusterIdx
        && (CoordDim.ltb a.blockIdx b.blockIdx || (a.blockIdx == b.blockIdx
          && CoordDim.ltb a.threadIdx b.threadIdx)))))))

/-- Unsigned distance magnitude between two values. -/
def natDist (a b : Nat) : Nat := max a b - min a b

/-- Modelled from the spec (section 4.1): `cuda_coord_distance` decides a
comparison when the two operands' distances from the origin differ
(`some (dist lhs < dist rhs)`), and reports a tie (`none`) when the
distances are equal or the origin field is a sentinel (a wildcard-origin
field is "always tied"). -/
def cuda_coord_distance (origin l r : CoordVal) : Option Bool :=
  match origin, l, r with
  | .val o, .val a, .val b =>
    if natDist a o = natDist b o then none
    else some (decide (natDist a o < natDist b o))
  | _, _, _ => none

/-- Componentwise distance triple of a 3-D field from an origin triple. -/
def dimDist (o d : CuDim3) : CuDim3 :=
  ⟨natDist d.x o.x, natDist d.y o.y, natDist d.z o.z⟩

/-- Modelled from the spec: `cuda_coord_distance` on a 3-D field compares
the componentwise distance triples, tied exactly when they are equal. -/
def cuda_coord_distance_dim (origin l r : CoordDim) : Option Bool :=
  match origin, l, r with
  | .val o, .val a, .val b =>
    if dimDist o a = dimDist o b then none
    else some (dim3Ltb (dimDist o a) (dimDist o b))
  | _, _, _ => none

/-- Origin-mode physical comparison, embedded from
`cuda_coord_compare::operator()` (src/gdb/cuda/cuda-coord-set.h:154-189):
check device, sm, warp, lane distances in turn with early return, then
fall back to the sequential order over raw values. -/
def comparePhysOrigin (origin lhs rhs : CudaPhysical) : Bool :=
  match cuda_coord_distance origin.dev lhs.dev rhs.dev with
  | some res => res
  | none =>
    match cuda_coord_distance origin.sm lhs.sm rhs.sm with
    | some res => res
    | none =>
      match cuda_coord_distance origin.wp lhs.wp rhs.wp with
      | some res => res
      | none =>
        match cuda_coord_distance origin.ln lhs.ln rhs.ln with
        | some res => res
        | none => physLtb lhs rhs

/-- Origin-mode logical comparison, embedded from
`cuda_coord_compare::operator()` (src/gdb/cuda/cuda-coord-set.h:118-153):
check kernel id, grid id, block, thread distances in turn with early
return (the cluster field is not consulted), then fall back to the
sequential order over raw values. -/
def compareLogOrigin (origin lhs rhs : CudaLogical) : Bool :=
  match cuda_coord_distance origin.kernelId lhs.kernelId rhs.kernelId with
  | some res => res
  | none =>
    match cuda_coord_distance origin.gridId lhs.gridId rhs.gridId with
    | some res => res
    | none =>
      match cuda_coord_distance_dim origin.blockIdx lhs.blockIdx rhs.blockIdx with
      | some res => res
      | none =>
        match cuda_coord_distance_dim origin.threadIdx lhs.threadIdx rhs.threadIdx with
        | some res => res
        | none => logLtb lhs rhs

/-- `cuda_coord_compare_type` (src/gdb/cuda/cuda-coord-set.h:41-45). -/
inductive CompareType where
  | logical
  | physical
deriving DecidableEq, Repr

/-- The all-wildcard coordinate (a default-constructed `cuda_coords`). -/
def wildcardCoords : CudaCoords :=
  ⟨⟨.wildcard, .wildcard, .wildcard, .wildcard⟩,
   ⟨.wildcard, .wildcard, .wildcard, .wildcard, .wildcard⟩⟩

/-- `cuda_coord_compare::operator()` (src/gdb/cuda/cuda-coord-set.h:99-192):
sequential mode compares the natural tuples; origin mode compares by
distance from the origin with sequential fallback. -/
def coordCompare (ct : CompareType) (sequentialOrder : Bool)
    (origin lhs rhs : CudaCoords) : Bool :=
  if sequentialOrder then
    match ct with
    | .logical => logLtb lhs.logical rhs.logical
    | .physical => physLtb lhs.physical rhs.physical
  else
    match ct with
    | .logical => compareLogOrigin origin.logical lhs.logical rhs.logical
    | .physical => comparePhysOrigin origin.physical lhs.physical rhs.physical

/-- C4.  In origin mode the comparator orders two fully defined coordinates
by per-field distance from the origin, most significant field first
(physical: device, sm, warp, lane; logical: kernel id, grid id, block,
thread), returning as soon as the two operands' distances differ on a
field; a distance tie defers to the next field, and if every field ties the
result is the sequential raw-value lexicographic order of the operands.
The origin's cluster field (`ocid`) is arbitrary: cluster is not consulted. -/
theorem coord_compare_origin_distance_order
    (od os ow ol ld ls lw ll rd rs rw rl : Nat)
    (okid ogid : Nat) (ocid : CoordDim) (obid otid : CuDim3)
    (lkid lgid : Nat) (lcid lbid ltid : CuDim3)
    (rkid rgid : Nat) (rcid rbid rtid : CuDim3) :
    comparePhysOrigin ⟨.val od, .val os, .val ow, .val ol⟩
        ⟨.val ld, .val ls, .val lw, .val ll⟩
        ⟨.val rd, .val rs, .val rw, .val rl⟩
      = (if natDist ld od ≠ natDist rd od then
          decide (natDist ld od < natDist rd od)
        else if natDist ls os ≠ natDist rs os then
          decide (natDist ls os < natDist rs os)
        else if natDist lw ow ≠ natDist rw ow then
          decide (natDist lw ow < natDist rw ow)
        else if natDist ll ol ≠ natDist rl ol then
          decide (natDist ll ol < natDist rl ol)
        else physLtb ⟨.val ld, .val ls, .val lw, .val ll⟩
          ⟨.val rd, .val rs, .val rw, .val rl⟩)
    ∧ compareLogOrigin ⟨.val okid, .val ogid, ocid, .val obid, .val otid⟩
        ⟨.val lkid, .val lgid, .val lcid, .val lbid, .val ltid⟩
        ⟨.val rkid, .val rgid, .val rcid, .val rbid, .val rtid⟩
      = (if natDist lkid okid ≠ natDist rkid okid then
          decide (natDist lkid okid < natDist rkid okid)
        else if natDist lgid ogid ≠ natDist rgid ogid then
          decide (natDist lgid ogid < natDist rgid ogid)
        else if dimDist obid lbid ≠ dimDist obid rbid then
          dim3Ltb (dimDist obid lbid) (dimDist obid rbid)
        else if dimDist otid ltid ≠ dimDist otid rtid then
          dim3Ltb (dimDist otid ltid) (dimDist otid rtid)
        else logLtb ⟨.val lkid, .val lgid, .val lcid, .val lbid, .val ltid⟩
          ⟨.val rkid, .val rgid, .val rcid, .val rbid, .val rtid⟩) := by
  constructor
  · simp only [comparePhysOrigin, cuda_coord_distance]
    by_cases h1 : natDist ld od = natDist rd od <;>
      by_cases h2 : natDist ls os = natDist rs os <;>
        by_cases h3 : natDist lw ow = natDist rw ow <;>
          by_cases h4 : natDist ll ol = natDist rl ol <;>
            simp [h1, h2, h3, h4]
  · simp only [compareLogOrigin, cuda_coord_distance, cuda_coord_distance_dim]
    by_cases h1 : natDist lkid okid = natDist rkid okid <;>
      by_cases h2 : natDist lgid ogid = natDist rgid ogid <;>
        by_cases h3 : dimDist obid lbid = dimDist obid rbid <;>
          by_cases h4 : dimDist otid ltid = dimDist otid rtid <;>
            simp [h1, h2, h3, h4]

/-! ## Device State Provider and the enumeration engine

The provider (`cuda_state` in the source) is external to this core
(spec section 6): we model it as a record of query functions.
The `cuda_coord_set` constructor
(src/gdb/cuda/cuda-coord-set.h:342-643) is embedded as a pure nested
traversal over the provider, with the `continue` gates factored into
Boolean accept functions and the `break` statements as early returns. -/

/-- The Device State Provider interface (spec section 6). -/
structure DeviceState where
  numDevices : Nat
  numSms : Nat → Nat
  numWarps : Nat → Nat
  numLanes : Nat → Nat
  smValid : Nat → Nat → Bool
  smException : Nat → Nat → Bool
  warpValid : Nat → Nat → Nat → Bool
  warpBroken : Nat → Nat → Nat → Bool
  warpTsValid : Nat → Nat → Nat → Bool
  warpTs : Nat → Nat → Nat → Nat
  warpKernelId : Nat → Nat → Nat → Nat
  warpClusterDim : Nat → Nat → Nat → CuDim3
  warpClusterIdx : Nat → Nat → Nat → CuDim3
  warpGridId : Nat → Nat → Nat → Nat
  warpBlockIdx : Nat → Nat → Nat → CuDim3
  laneValid : Nat → Nat → Nat → Nat → Bool
  laneActive : Nat → Nat → Nat → Nat → Bool
  laneTsValid : Nat → Nat → Nat → Nat → Bool
  laneTs : Nat → Nat → Nat → Nat → Nat
  laneException : Nat → Nat → Nat → Nat → Bool
  laneThreadIdx : Nat → Nat → Nat → Nat → CuDim3
  lanePc : Nat → Nat → Nat → Nat → Nat
  bpHere : Nat → Bool
  clock : Nat

/-- `cuda_coord_set_type` (src/gdb/cuda/cuda-coord-set.h:47-56). -/
inductive CoordSetType where
  | devices
  | sms
  | warps
  | lanes
  | kernels
  | blocks
  | threads
deriving DecidableEq, Repr

/-- The predicate mask: one Boolean per `cuda_coord_set_mask_t` bit
(src/gdb/cuda/cuda-coord-set.h:58-69, extracted as the `constexpr bool`
values at lines 359-371). -/
structure SelectMask where
  valid : Bool
  atBreakpoint : Bool
  atException : Bool
  atAnyException : Bool
  single : Bool
  atTrap : Bool
  atClock : Bool
  active : Bool
deriving DecidableEq, Repr

/-- `logical_type ()` (src/gdb/cuda/cuda-coord-set.h:222-237). -/
def logicalType : CoordSetType → Bool
  | .devices => false
  | .sms => false
  | .warps => false
  | .lanes => false
  | .kernels => true
  | .blocks => true
  | .threads => true

/-- `storeSm ()` (src/gdb/cuda/cuda-coord-set.h:239-254). -/
def storeSm : CoordSetType → Bool
  | .devices => false
  | .kernels => false
  | .sms => true
  | .warps => true
  | .lanes => true
  | .blocks => true
  | .threads => true

/-- `storeWarp ()` (src/gdb/cuda/cuda-coord-set.h:256-271). -/
def storeWarp : CoordSetType → Bool
  | .devices => false
  | .sms => false
  | .kernels => false
  | .blocks => false
  | .warps => true
  | .lanes => true
  | .threads => true

/-- `storeLane ()` (src/gdb/cuda/cuda-coord-set.h:273-288). -/
def storeLane : CoordSetType → Bool
  | .devices => false
  | .sms => false
  | .warps => false
  | .kernels => false
  | .blocks => false
  | .lanes => true
  | .threads => true

/-- `storeKernel ()` (src/gdb/cuda/cuda-coord-set.h:290-305).
Note: true at every granularity except `devices` — in particular at the
physical granularities `sms`, `warps`, `lanes`. -/
def storeKernel : CoordSetType → Bool
  | .devices => false
  | .sms => true
  | .warps => true
  | .lanes => true
  | .kernels => true
  | .blocks => true
  | .threads => true

/-- `storeBlock ()` (src/gdb/cuda/cuda-coord-set.h:307-322). -/
def storeBlock : CoordSetType → Bool
  | .devices => false
  | .sms => false
  | .kernels => false
  | .warps => true
  | .lanes => true
  | .blocks => true
  | .threads => true

/-- `storeThread ()` (src/gdb/cuda/cuda-coord-set.h:324-339). -/
def storeThread : CoordSetType → Bool
  | .devices => false
  | .sms => false
  | .kernels => false
  | .warps => true
  | .lanes => true
  | .blocks => true
  | .threads => true

/-- `validWarp` (src/gdb/cuda/cuda-coord-set.h:411-412). -/
def validWarp (st : DeviceState) (d s w : Nat) : Bool :=
  st.smValid d s && st.warpValid d s w

/-- The warp's kernel id: resolved only if the warp is valid, otherwise the
`CUDA_INVALID` sentinel (src/gdb/cuda/cuda-coord-set.h:430-436). -/
def kidOf (st : DeviceState) (d s w : Nat) : CoordVal :=
  if validWarp st d s w then .val (st.warpKernelId d s w) else .invalid

/-- The warp's grid id (src/gdb/cuda/cuda-coord-set.h:450-452). -/
def gidOf (st : DeviceState) (d s w : Nat) : CoordVal :=
  if validWarp st d s w then .val (st.warpGridId d s w) else .invalid

/-- The warp's cluster index: `CUDA_IGNORE_DIM` when the kernel's cluster
dimensions include a zero, `CUDA_INVALID_DIM` for an invalid warp
(src/gdb/cuda/cuda-coord-set.h:431-448). -/
def cidxOf (st : DeviceState) (d s w : Nat) : CoordDim :=
  if validWarp st d s w then
    if (st.warpClusterDim d s w).x ≠ 0 ∧ (st.warpClusterDim d s w).y ≠ 0
        ∧ (st.warpClusterDim d s w).z ≠ 0 then
      .val (st.warpClusterIdx d s w)
    else .ignore
  else .invalid

/-- The warp's block index (src/gdb/cuda/cuda-coord-set.h:453-455). -/
def bidxOf (st : DeviceState) (d s w : Nat) : CoordDim :=
  if validWarp st d s w then .val (st.warpBlockIdx d s w) else .invalid

/-- The lane's thread index: resolved only when SM, warp and lane are all
valid (src/gdb/cuda/cuda-coord-set.h:564-570). -/
def tidxOf (st : DeviceState) (d s w l : Nat) : CoordDim :=
  if st.smValid d s && st.warpValid d s w && st.laneValid d s w l then
    .val (st.laneThreadIdx d s w l)
  else .invalid

/-- The staleness test for a warp: timestamp reported valid and strictly
older than the reference clock (src/gdb/cuda/cuda-coord-set.h:420-422). -/
def warpOutdated (st : DeviceState) (d s w : Nat) : Bool :=
  st.warpTsValid d s w && decide (st.warpTs d s w < st.clock)

/-- The staleness test for a lane (src/gdb/cuda/cuda-coord-set.h:521-524). -/
def laneOutdated (st : DeviceState) (d s w l : Nat) : Bool :=
  st.laneTsValid d s w l && decide (st.laneTs d s w l < st.clock)

/-- The device-level filter gate (src/gdb/cuda/cuda-coord-set.h:379-381). -/
def devAccept (filter : CudaCoords) (d : Nat) : Bool :=
  cuda_coord_equals filter.physical.dev (.val d)

/-- The SM-level gates (src/gdb/cuda/cuda-coord-set.h:386-397): filter
match, exception presence when requested, validity when requested. -/
def smAccept (st : DeviceState) (filter : CudaCoords) (mask : SelectMask)
    (d s : Nat) : Bool :=
  cuda_coord_equals filter.physical.sm (.val s)
  && (!(mask.atException || mask.atAnyException) || st.smException d s)
  && (!mask.valid || st.smValid d s)

/-- The warp-level gates (src/gdb/cuda/cuda-coord-set.h:406-464): filter
match, warp validity when requested or when enumerating a logical
granularity, staleness, trap state, and the logical-coordinate filter
match. -/
def warpAccept (st : DeviceState) (filter : CudaCoords) (mask : SelectMask)
    (ty : CoordSetType) (d s w : Nat) : Bool :=
  cuda_coord_equals filter.physical.wp (.val w)
  && (validWarp st d s w || !(mask.valid || logicalType ty))
  && !(mask.atClock && warpOutdated st d s w)
  && (!mask.atTrap || st.warpBroken d s w)
  && cuda_coord_equals filter.logical.kernelId (kidOf st d s w)
  && cuda_coord_equals filter.logical.gridId (gidOf st d s w)
  && cuda_coord_equals_dim filter.logical.blockIdx (bidxOf st d s w)

/-- The lane-level gates (src/gdb/cuda/cuda-coord-set.h:508-575): filter
match, validity and activity when requested, staleness, breakpoint,
exception and trap checks, and the thread-index filter match. -/
def laneAccept (st : DeviceState) (filter : CudaCoords) (mask : SelectMask)
    (d s w l : Nat) : Bool :=
  cuda_coord_equals filter.physical.ln (.val l)
  && (!mask.valid || st.laneValid d s w l)
  && (!mask.active || st.laneActive d s w l)
  && !(mask.atClock && laneOutdated st d s w l)
  && (!mask.atBreakpoint
      || (st.smValid d s && st.warpValid d s w && st.laneValid d s w l
          && st.laneActive d s w l && st.bpHere (st.lanePc d s w l)))
  && (!mask.atException
      || (st.smValid d s && st.warpValid d s w && st.laneValid d s w l
          && st.laneActive d s w l && st.laneException d s w l))
  && (!mask.atTrap
      || (st.smValid d s && st.warpValid d s w && st.laneValid d s w l
          && st.laneActive d s w l))
  && cuda_coord_equals_dim filter.logical.threadIdx (tidxOf st d s w l)

/-- Does a physical lane pass every level's filter and predicate gates?
This is "a coordinate matches the filter and the other predicate bits":
the conjunction of all gates, excluding the construction-local
kernel/block deduplication and the `single` early exit. -/
def laneMatches (st : DeviceState) (filter : CudaCoords) (mask : SelectMask)
    (ty : CoordSetType) (d s w l : Nat) : Bool :=
  devAccept filter d && smAccept st filter mask d s
  && warpAccept st filter mask ty d s w && laneAccept st filter mask d s w l

/-- Building the output coordinate from a match: keep only the fields the
granularity stores, wildcard the rest
(src/gdb/cuda/cuda-coord-set.h:580-598). -/
def mkStored (ty : CoordSetType) (d s w l : Nat) (kid gid : CoordVal)
    (cidx bidx tidx : CoordDim) : CudaCoords :=
  ⟨⟨.val d,
    if storeSm ty then .val s else .wildcard,
    if storeWarp ty then .val w else .wildcard,
    if storeLane ty then .val l else .wildcard⟩,
   ⟨if storeKernel ty then kid else .wildcard,
    if storeKernel ty then gid else .wildcard,
    if storeBlock ty then cidx else .wildcard,
    if storeBlock ty then bidx else .wildcard,
    if storeThread ty then tidx else .wildcard⟩⟩

/-- The coordinate a match at `(d, s, w, l)` contributes to the set. -/
def storedAt (st : DeviceState) (ty : CoordSetType) (d s w l : Nat) :
    CudaCoords :=
  mkStored ty d s w l (kidOf st d s w) (gidOf st d s w) (cidxOf st d s w)
    (bidxOf st d s w) (tidxOf st d s w l)

/-- `std::set::emplace` under a strict-weak-order comparator: sorted
insert, dropped if an equivalent element (neither less nor greater) is
already present. -/
def insertCoord (cmp : CudaCoords → CudaCoords → Bool) (c : CudaCoords) :
    List CudaCoords → List CudaCoords
  | [] => [c]
  | x :: xs =>
    if cmp c x then c :: x :: xs
    else if cmp x c then x :: insertCoord cmp c xs
    else x :: xs

/-- Construction-local state: the ordered set plus the `foundKernels` /
`foundBlocks` deduplication sets (src/gdb/cuda/cuda-coord-set.h:353-356). -/
structure BuildAcc where
  coords : List CudaCoords
  foundKernels : List CoordVal
  foundBlocks : List (CoordVal × CoordDim)
deriving Repr

/-- The kernel/block deduplication step
(src/gdb/cuda/cuda-coord-set.h:466-499): `none` means "already seen, skip
this warp"; otherwise the current kernel (or kernel/block pair) is marked
seen.  Granularities other than `kernels`/`blocks` do not deduplicate. -/
def dedupCheck (ty : CoordSetType) (kid : CoordVal) (bidx : CoordDim)
    (acc : BuildAcc) : Option BuildAcc :=
  match ty with
  | .kernels =>
    if kid ∈ acc.foundKernels then none
    else some { acc with foundKernels := kid :: acc.foundKernels }
  | .blocks =>
    if (kid, bidx) ∈ acc.foundBlocks then none
    else some { acc with foundBlocks := (kid, bidx) :: acc.foundBlocks }
  | _ => some acc

/-- Granularities that break out of the lane loop after one store
(src/gdb/cuda/cuda-coord-set.h:608-613). -/
def laneBreakAfterStore : CoordSetType → Bool
  | .devices => true
  | .sms => true
  | .warps => true
  | .kernels => true
  | .blocks => true
  | .lanes => false
  | .threads => false

/-- The lane loop (src/gdb/cuda/cuda-coord-set.h:505-614). -/
def laneLoop (st : DeviceState) (filter : CudaCoords) (mask : SelectMask)
    (ty : CoordSetType) (cmp : CudaCoords → CudaCoords → Bool) (d s w : Nat) :
    List Nat → List CudaCoords → List CudaCoords
  | [], coords => coords
  | l :: rest, coords =>
    if laneAccept st filter mask d s w l then
      if mask.single then insertCoord cmp (storedAt st ty d s w l) coords
      else if laneBreakAfterStore ty then
        insertCoord cmp (storedAt st ty d s w l) coords
      else laneLoop st filter mask ty cmp d s w rest
        (insertCoord cmp (storedAt st ty d s w l) coords)
    else laneLoop st filter mask ty cmp d s w rest coords

/-- The warp loop (src/gdb/cuda/cuda-coord-set.h:403-626), including the
`single` early exit and the one-entry-per-SM break for `devices`/`sms`
granularities. -/
def warpLoop (st : DeviceState) (filter : CudaCoords) (mask : SelectMask)
    (ty : CoordSetType) (cmp : CudaCoords → CudaCoords → Bool) (d s : Nat) :
    List Nat → BuildAcc → BuildAcc
  | [], acc => acc
  | w :: rest, acc =>
    if warpAccept st filter mask ty d s w then
      match dedupCheck ty (kidOf st d s w) (bidxOf st d s w) acc with
      | none => warpLoop st filter mask ty cmp d s rest acc
      | some acc₁ =>
        let coords₂ := laneLoop st filter mask ty cmp d s w
          (List.range (st.numLanes d)) acc₁.coords
        let acc₂ := { acc₁ with coords := coords₂ }
        if mask.single && decide (0 < coords₂.length) then acc₂
        else if (ty == CoordSetType.devices || ty == CoordSetType.sms)
            && decide (acc₁.coords.length < coords₂.length) then acc₂
        else warpLoop st filter mask ty cmp d s rest acc₂
    else warpLoop st filter mask ty cmp d s rest acc

/-- The SM loop (src/gdb/cuda/cuda-coord-set.h:384-637), including the
`single` early exit and the one-entry-per-device break for the `devices`
granularity. -/
def smLoop (st : DeviceState) (filter : CudaCoords) (mask : SelectMask)
    (ty : CoordSetType) (cmp : CudaCoords → CudaCoords → Bool) (d : Nat) :
    List Nat → BuildAcc → BuildAcc
  | [], acc => acc
  | s :: rest, acc =>
    if smAccept st filter mask d s then
      let acc₂ := warpLoop st filter mask ty cmp d s
        (List.range (st.numWarps d)) acc
      if mask.single && decide (0 < acc₂.coords.length) then acc₂
      else if ty == CoordSetType.devices
          && decide (acc.coords.length < acc₂.coords.length) then acc₂
      else smLoop st filter mask ty cmp d rest acc₂
    else smLoop st filter mask ty cmp d rest acc

/-- The device loop (src/gdb/cuda/cuda-coord-set.h:377-642). -/
def devLoop (st : DeviceState) (filter : CudaCoords) (mask : SelectMask)
    (ty : CoordSetType) (cmp : CudaCoords → CudaCoords → Bool) :
    List Nat → BuildAcc → BuildAcc
  | [], acc => acc
  | d :: rest, acc =>
    if devAccept filter d then
      let acc₂ := smLoop st filter mask ty cmp d
        (List.range (st.numSms d)) acc
      if mask.single && decide (0 < acc₂.coords.length) then acc₂
      else devLoop st filter mask ty cmp rest acc₂
    else devLoop st filter mask ty cmp rest acc

/-- The `cuda_coord_set` constructor
(src/gdb/cuda/cuda-coord-set.h:342-643): the ordered member sequence built
for a filter, mask, granularity, compare type and optional origin. -/
def buildCoordSet (st : DeviceState) (filter : CudaCoords) (mask : SelectMask)
    (ty : CoordSetType) (ct : CompareType) (origin : Option CudaCoords) :
    List CudaCoords :=
  (devLoop st filter mask ty
    (coordCompare ct origin.isNone (origin.getD wildcardCoords))
    (List.range st.numDevices) ⟨[], [], []⟩).coords

/-! ### Structural lemmas about ordered-set insertion -/

theorem insertCoord_ne_nil (cmp : CudaCoords → CudaCoords → Bool)
    (c : CudaCoords) (l : List CudaCoords) : insertCoord cmp c l ≠ [] := by
  cases l with
  | nil => simp [insertCoord]
  | cons x xs =>
    simp only [insertCoord]
    split
    · simp
    · split <;> simp

theorem mem_insertCoord {cmp : CudaCoords → CudaCoords → Bool}
    {c a : CudaCoords} {l : List CudaCoords}
    (h : a ∈ insertCoord cmp c l) : a = c ∨ a ∈ l := by
  induction l with
  | nil => simpa [insertCoord] using h
  | cons x xs ih =>
    simp only [insertCoord] at h
    split at h
    · rcases List.mem_cons.mp h with rfl | h'
      · exact Or.inl rfl
      · exact Or.inr h'
    · split at h
      · rcases List.mem_cons.mp h with rfl | h'
        · exact Or.inr (List.mem_cons_self _ _)
        · rcases ih h' with rfl | h''
          · exact Or.inl rfl
          · exact Or.inr (List.mem_cons_of_mem _ h'')
      · exact Or.inr h

theorem mem_insertCoord_of_mem {cmp : CudaCoords → CudaCoords → Bool}
    {c a : CudaCoords} {l : List CudaCoords}
    (h : a ∈ l) : a ∈ insertCoord cmp c l := by
  induction l with
  | nil => cases h
  | cons x xs ih =>
    simp only [insertCoord]
    split
    · exact List.mem_cons_of_mem _ h
    · split
      · rcases List.mem_cons.mp h with rfl | h'
        · exact List.mem_cons_self _ _
        · exact List.mem_cons_of_mem _ (ih h')
      · exact h

/-- `emplace` either leaves the list unchanged (an equivalent member was
present) or splices the new element in at one position. -/
theorem insertCoord_eq_or_splice (cmp : CudaCoords → CudaCoords → Bool)
    (c : CudaCoords) (l : List CudaCoords) :
    insertCoord cmp c l = l
    ∨ ∃ l₁ l₂, l = l₁ ++ l₂ ∧ insertCoord cmp c l = l₁ ++ c :: l₂ := by
  induction l with
  | nil => exact Or.inr ⟨[], [], rfl, rfl⟩
  | cons x xs ih =>
    simp only [insertCoord]
    split
    · exact Or.inr ⟨[], x :: xs, rfl, rfl⟩
    · split
      · rcases ih with h | ⟨l₁, l₂, hsplit, hins⟩
        · exact Or.inl (by rw [h])
        · exact Or.inr ⟨x :: l₁, l₂, by rw [hsplit]; rfl, by rw [hins]; rfl⟩
      · exact Or.inl rfl

theorem insertCoord_length_le (cmp : CudaCoords → CudaCoords → Bool)
    (c : CudaCoords) (l : List CudaCoords) :
    (insertCoord cmp c l).length ≤ l.length + 1 := by
  rcases insertCoord_eq_or_splice cmp c l with h | ⟨l₁, l₂, hsplit, hins⟩
  · rw [h]; omega
  · rw [hins, hsplit]; simp; omega

theorem insertCoord_length_ge (cmp : CudaCoords → CudaCoords → Bool)
    (c : CudaCoords) (l : List CudaCoords) :
    l.length ≤ (insertCoord cmp c l).length := by
  rcases insertCoord_eq_or_splice cmp c l with h | ⟨l₁, l₂, hsplit, hins⟩
  · rw [h]
  · rw [hins, hsplit]; simp

theorem insertCoord_countP (cmp : CudaCoords → CudaCoords → Bool)
    (c : CudaCoords) (l : List CudaCoords) (p : CudaCoords → Bool) :
    (insertCoord cmp c l).countP p ≤ l.countP p + (if p c then 1 else 0) := by
  rcases insertCoord_eq_or_splice cmp c l with h | ⟨l₁, l₂, hsplit, hins⟩
  · rw [h]; omega
  · rw [hins, hsplit, List.countP_append, List.countP_append, List.countP_cons]
    split <;> omega

/-! ### Provenance: every member of the built set comes from a lane that
passed every gate -/

theorem dedupCheck_coords {ty : CoordSetType} {kid : CoordVal}
    {bidx : CoordDim} {acc acc' : BuildAcc}
    (h : dedupCheck ty kid bidx acc = some acc') :
    acc'.coords = acc.coords := by
  cases ty <;> simp only [dedupCheck] at h
  all_goals first
    | (cases h; rfl)
    | (split at h
       · exact Option.noConfusion h
       · cases h; rfl)

theorem laneLoop_mem {st : DeviceState} {filter : CudaCoords}
    {mask : SelectMask} {ty : CoordSetType}
    {cmp : CudaCoords → CudaCoords → Bool} {d s w : Nat} :
    ∀ {lanes : List Nat} {coords : List CudaCoords} {a : CudaCoords},
    a ∈ laneLoop st filter mask ty cmp d s w lanes coords →
    a ∈ coords ∨ ∃ l ∈ lanes, laneAccept st filter mask d s w l = true
      ∧ a = storedAt st ty d s w l := by
  intro lanes
  induction lanes with
  | nil => intro coords a h; exact Or.inl h
  | cons l rest ih =>
    intro coords a h
    simp only [laneLoop] at h
    by_cases hacc : laneAccept st filter mask d s w l = true
    · rw [if_pos hacc] at h
      split at h
      · rcases mem_insertCoord h with rfl | h'
        · exact Or.inr ⟨l, List.mem_cons_self _ _, hacc, rfl⟩
        · exact Or.inl h'
      · split at h
        · rcases mem_insertCoord h with rfl | h'
          · exact Or.inr ⟨l, List.mem_cons_self _ _, hacc, rfl⟩
          · exact Or.inl h'
        · rcases ih h with h' | ⟨l', hl', hacc', ha⟩
          · rcases mem_insertCoord h' with rfl | h''
            · exact Or.inr ⟨l, List.mem_cons_self _ _, hacc, rfl⟩
            · exact Or.inl h''
          · exact Or.inr ⟨l', List.mem_cons_of_mem _ hl', hacc', ha⟩
    · rw [if_neg hacc] at h
      rcases ih h with h' | ⟨l', hl', hacc', ha⟩
      · exact Or.inl h'
      · exact Or.inr ⟨l', List.mem_cons_of_mem _ hl', hacc', ha⟩

theorem warpLoop_mem {st : DeviceState} {filter : CudaCoords}
    {mask : SelectMask} {ty : CoordSetType}
    {cmp : CudaCoords → CudaCoords → Bool} {d s : Nat} :
    ∀ {ws : List Nat} {acc : BuildAcc} {a : CudaCoords},
    a ∈ (warpLoop st filter mask ty cmp d s ws acc).coords →
    a ∈ acc.coords
    ∨ ∃ w ∈ ws, warpAccept st filter mask ty d s w = true
      ∧ ∃ l, l < st.numLanes d ∧ laneAccept st filter mask d s w l = true
        ∧ a = storedAt st ty d s w l := by
  intro ws
  induction ws with
  | nil => intro acc a h; exact Or.inl h
  | cons w rest ih =>
    intro acc a h
    simp only [warpLoop] at h
    by_cases hacc : warpAccept st filter mask ty d s w = true
    · rw [if_pos hacc] at h
      split at h
      · rcases ih h with h' | ⟨w', hw', h''⟩
        · exact Or.inl h'
        · exact Or.inr ⟨w', List.mem_cons_of_mem _ hw', h''⟩
      · next acc₁ heq =>
        have hc : acc₁.coords = acc.coords := dedupCheck_coords heq
        split at h
        · rcases laneLoop_mem h with h' | ⟨l, hl, hacc', ha⟩
          · exact Or.inl (hc ▸ h')
          · exact Or.inr ⟨w, List.mem_cons_self _ _, hacc,
              l, List.mem_range.mp hl, hacc', ha⟩
        · split at h
          · rcases laneLoop_mem h with h' | ⟨l, hl, hacc', ha⟩
            · exact Or.inl (hc ▸ h')
            · exact Or.inr ⟨w, List.mem_cons_self _ _, hacc,
                l, List.mem_range.mp hl, hacc', ha⟩
          · rcases ih h with h' | ⟨w', hw', h''⟩
            · rcases laneLoop_mem h' with h'' | ⟨l, hl, hacc', ha⟩
              · exact Or.inl (hc ▸ h'')
              · exact Or.inr ⟨w, List.mem_cons_self _ _, hacc,
                  l, List.mem_range.mp hl, hacc', ha⟩
            · exact Or.inr ⟨w', List.mem_cons_of_mem _ hw', h''⟩
    · rw [if_neg hacc] at h
      rcases ih h with h' | ⟨w', hw', h''⟩
      · exact Or.inl h'
      · exact Or.inr ⟨w', List.mem_cons_of_mem _ hw', h''⟩

theorem smLoop_mem {st : DeviceState} {filter : CudaCoords}
    {mask : SelectMask} {ty : CoordSetType}
    {cmp : CudaCoords → CudaCoords → Bool} {d : Nat} :
    ∀ {sms : List Nat} {acc : BuildAcc} {a : CudaCoords},
    a ∈ (smLoop st filter mask ty cmp d sms acc).coords →
    a ∈ acc.coords
    ∨ ∃ s ∈ sms, smAccept st filter mask d s = true
      ∧ ∃ w, w < st.numWarps d ∧ warpAccept st filter mask ty d s w = true
        ∧ ∃ l, l < st.numLanes d ∧ laneAccept st filter mask d s w l = true
          ∧ a = storedAt st ty d s w l := by
  intro sms
  induction sms with
  | nil => intro acc a h; exact Or.inl h
  | cons s rest ih =>
    intro acc a h
    simp only [smLoop] at h
    by_cases hacc : smAccept st filter mask d s = true
    · rw [if_pos hacc] at h
      have hwl : ∀ {b : CudaCoords},
          b ∈ (warpLoop st filter mask ty cmp d s
            (List.range (st.numWarps d)) acc).coords →
          b ∈ acc.coords
          ∨ ∃ w, w < st.numWarps d ∧ warpAccept st filter mask ty d s w = true
            ∧ ∃ l, l < st.numLanes d ∧ laneAccept st filter mask d s w l = true
              ∧ b = storedAt st ty d s w l := by
        intro b hb
        rcases warpLoop_mem hb with h' | ⟨w, hw, h''⟩
        · exact Or.inl h'
        · exact Or.inr ⟨w, List.mem_range.mp hw, h''⟩
      split at h
      · rcases hwl h with h' | ⟨w, hw, h''⟩
        · exact Or.inl h'
        · exact Or.inr ⟨s, List.mem_cons_self _ _, hacc, w, hw, h''⟩
      · split at h
        · rcases hwl h with h' | ⟨w, hw, h''⟩
          · exact Or.inl h'
          · exact Or.inr ⟨s, List.mem_cons_self _ _, hacc, w, hw, h''⟩
        · rcases ih h with h' | ⟨s', hs', h''⟩
          · rcases hwl h' with h'' | ⟨w, hw, h'''⟩
            · exact Or.inl h''
            · exact Or.inr ⟨s, List.mem_cons_self _ _, hacc, w, hw, h'''⟩
          · exact Or.inr ⟨s', List.mem_cons_of_mem _ hs', h''⟩
    · rw [if_neg hacc] at h
      rcases ih h with h' | ⟨s', hs', h''⟩
      · exact Or.inl h'
      · exact Or.inr ⟨s', List.mem_cons_of_mem _ hs', h''⟩

theorem devLoop_mem {st : DeviceState} {filter : CudaCoords}
    {mask : SelectMask} {ty : CoordSetType}
    {cmp : CudaCoords → CudaCoords → Bool} :
    ∀ {ds : List Nat} {acc : BuildAcc} {a : CudaCoords},
    a ∈ (devLoop st filter mask ty cmp ds acc).coords →
    a ∈ acc.coords
    ∨ ∃ dv ∈ ds, devAccept filter dv = true
      ∧ ∃ s, s < st.numSms dv ∧ smAccept st filter mask dv s = true
        ∧ ∃ w, w < st.numWarps dv
          ∧ warpAccept st filter mask ty dv s w = true
          ∧ ∃ l, l < st.numLanes dv
            ∧ laneAccept st filter mask dv s w l = true
            ∧ a = storedAt st ty dv s w l := by
  intro ds
  induction ds with
  | nil => intro acc a h; exact Or.inl h
  | cons dv rest ih =>
    intro acc a h
    simp only [devLoop] at h
    by_cases hacc : devAccept filter dv = true
    · rw [if_pos hacc] at h
      have hsl : ∀ {b : CudaCoords},
          b ∈ (smLoop st filter mask ty cmp dv
            (List.range (st.numSms dv)) acc).coords →
          b ∈ acc.coords
          ∨ ∃ s, s < st.numSms dv ∧ smAccept st filter mask dv s = true
            ∧ ∃ w, w < st.numWarps dv
              ∧ warpAccept st filter mask ty dv s w = true
              ∧ ∃ l, l < st.numLanes dv
                ∧ laneAccept st filter mask dv s w l = true
                ∧ b = storedAt st ty dv s w l := by
        intro b hb
        rcases smLoop_mem hb with h' | ⟨s, hs, h''⟩
        · exact Or.inl h'
        · exact Or.inr ⟨s, List.mem_range.mp hs, h''⟩
      split at h
      · rcases hsl h with h' | ⟨s, hs, h''⟩
        · exact Or.inl h'
        · exact Or.inr ⟨dv, List.mem_cons_self _ _, hacc, s, hs, h''⟩
      · rcases ih h with h' | ⟨dv', hdv', h''⟩
        · rcases hsl h' with h'' | ⟨s, hs, h'''⟩
          · exact Or.inl h''
          · exact Or.inr ⟨dv, List.mem_cons_self _ _, hacc, s, hs, h'''⟩
        · exact Or.inr ⟨dv', List.mem_cons_of_mem _ hdv', h''⟩
    · rw [if_neg hacc] at h
      rcases ih h with h' | ⟨dv', hdv', h''⟩
      · exact Or.inl h'
      · exact Or.inr ⟨dv', List.mem_cons_of_mem _ hdv', h''⟩

/-- Every member of a built coordinate set is the stored projection of a
physical lane inside the reported topology that passed all four levels of
filter and predicate gates. -/
theorem buildCoordSet_mem {st : DeviceState} {filter : CudaCoords}
    {mask : SelectMask} {ty : CoordSetType} {ct : CompareType}
    {origin : Option CudaCoords} {a : CudaCoords}
    (h : a ∈ buildCoordSet st filter mask ty ct origin) :
    ∃ d s w l, d < st.numDevices ∧ s < st.numSms d ∧ w < st.numWarps d
      ∧ l < st.numLanes d ∧ laneMatches st filter mask ty d s w l = true
      ∧ a = storedAt st ty d s w l := by
  rcases devLoop_mem h with h' | ⟨dv, hdv, hdacc, s, hs, hsacc, w, hw, hwacc,
    l, hl, hlacc, ha⟩
  · cases h'
  · refine ⟨dv, s, w, l, List.mem_range.mp hdv, hs, hw, hl, ?_, ha⟩
    simp [laneMatches, hdacc, hsacc, hwacc, hlacc]

/-! ### Concrete provider snapshots used for counterexamples and
witnesses -/

/-- The empty predicate mask (`select_all`). -/
def emptyMask : SelectMask :=
  { valid := false, atBreakpoint := false, atException := false,
    atAnyException := false, single := false, atTrap := false,
    atClock := false, active := false }

/-- `select_sngl | select_active`. -/
def singleActiveMask : SelectMask :=
  { emptyMask with single := true, active := true }

/-- `select_bkpt` alone. -/
def bkptMask : SelectMask :=
  { emptyMask with atBreakpoint := true }

/-- One device with two SMs, one warp and one lane each, everything valid
and active, every warp running kernel 7 / grid 1, no cluster, timestamps
reported invalid. -/
def twoSmState : DeviceState :=
  { numDevices := 1, numSms := fun _ => 2, numWarps := fun _ => 1,
    numLanes := fun _ => 1,
    smValid := fun _ _ => true, smException := fun _ _ => false,
    warpValid := fun _ _ _ => true, warpBroken := fun _ _ _ => false,
    warpTsValid := fun _ _ _ => false, warpTs := fun _ _ _ => 0,
    warpKernelId := fun _ _ _ => 7,
    warpClusterDim := fun _ _ _ => ⟨0, 0, 0⟩,
    warpClusterIdx := fun _ _ _ => ⟨0, 0, 0⟩,
    warpGridId := fun _ _ _ => 1,
    warpBlockIdx := fun _ _ _ => ⟨0, 0, 0⟩,
    laneValid := fun _ _ _ _ => true, laneActive := fun _ _ _ _ => true,
    laneTsValid := fun _ _ _ _ => false, laneTs := fun _ _ _ _ => 0,
    laneException := fun _ _ _ _ => false,
    laneThreadIdx := fun _ _ _ _ => ⟨0, 0, 0⟩,
    lanePc := fun _ _ _ _ => 0,
    bpHere := fun _ => true, clock := 0 }

/-- One device, one SM, two warps both running kernel 7, one lane per
warp; only warp 1's lane is active.  Warp 0 registers kernel 7 in the
dedup set without contributing a member, masking warp 1's match at
`kernels` granularity. -/
def dedupMissState : DeviceState :=
  { twoSmState with
    numSms := fun _ => 1, numWarps := fun _ => 2,
    laneActive := fun _ _ w _ => w == 1 }

/-! ### C8, C9, C10 -/

/-- Decompose the lane gate chain into its eight conjuncts. -/
theorem laneAccept_parts {st : DeviceState} {filter : CudaCoords}
    {mask : SelectMask} {d s w l : Nat}
    (h : laneAccept st filter mask d s w l = true) :
    cuda_coord_equals filter.physical.ln (.val l) = true
    ∧ (!mask.valid || st.laneValid d s w l) = true
    ∧ (!mask.active || st.laneActive d s w l) = true
    ∧ (!(mask.atClock && laneOutdated st d s w l)) = true
    ∧ (!mask.atBreakpoint
        || (st.smValid d s && st.warpValid d s w && st.laneValid d s w l
            && st.laneActive d s w l && st.bpHere (st.lanePc d s w l))) = true
    ∧ (!mask.atException
        || (st.smValid d s && st.warpValid d s w && st.laneValid d s w l
            && st.laneActive d s w l && st.laneException d s w l)) = true
    ∧ (!mask.atTrap
        || (st.smValid d s && st.warpValid d s w && st.laneValid d s w l
            && st.laneActive d s w l)) = true
    ∧ cuda_coord_equals_dim filter.logical.threadIdx (tidxOf st d s w l)
        = true := by
  simp only [laneAccept, Bool.and_eq_true] at h
  exact ⟨h.1.1.1.1.1.1.1, h.1.1.1.1.1.1.2, h.1.1.1.1.1.2, h.1.1.1.1.2,
    h.1.1.1.2, h.1.1.2, h.1.2, h.2⟩

/-- If any of the breakpoint, exception or trap predicate bits is set,
a lane passes the lane gates only when its SM, warp and lane are valid
and the lane is active. -/
theorem laneAccept_requires_valid_active {st : DeviceState}
    {filter : CudaCoords} {mask : SelectMask} {d s w l : Nat}
    (h : laneAccept st filter mask d s w l = true)
    (hb : mask.atBreakpoint = true ∨ mask.atException = true
      ∨ mask.atTrap = true) :
    st.smValid d s = true ∧ st.warpValid d s w = true
    ∧ st.laneValid d s w l = true ∧ st.laneActive d s w l = true := by
  obtain ⟨-, -, -, -, h5, h6, h7, -⟩ := laneAccept_parts h
  rcases hb with hb | hb | hb
  · rw [hb] at h5
    simp only [Bool.not_true, Bool.false_or, Bool.and_eq_true] at h5
    exact ⟨h5.1.1.1.1, h5.1.1.1.2, h5.1.1.2, h5.1.2⟩
  · rw [hb] at h6
    simp only [Bool.not_true, Bool.false_or, Bool.and_eq_true] at h6
    exact ⟨h6.1.1.1.1, h6.1.1.1.2, h6.1.1.2, h6.1.2⟩
  · rw [hb] at h7
    simp only [Bool.not_true, Bool.false_or, Bool.and_eq_true] at h7
    exact ⟨h7.1.1.1, h7.1.1.2, h7.1.2, h7.2⟩

/-- C10.  When any of `select_bkpt`, `select_excpt` or `select_trap` is
set — even without `select_valid` or `select_active` — every member of the
set was inserted from a lane whose SM, warp and lane are all valid and
whose lane is active, because each of the three predicate checks
independently requires all four conditions. -/
theorem coord_set_bkpt_excpt_trap_member_valid_active
    (st : DeviceState) (filter : CudaCoords) (mask : SelectMask)
    (ty : CoordSetType) (ct : CompareType) (origin : Option CudaCoords)
    (hb : mask.atBreakpoint = true ∨ mask.atException = true
      ∨ mask.atTrap = true)
    (a : CudaCoords) (ha : a ∈ buildCoordSet st filter mask ty ct origin) :
    ∃ d s w l, st.smValid d s = true ∧ st.warpValid d s w = true
      ∧ st.laneValid d s w l = true ∧ st.laneActive d s w l = true
      ∧ laneMatches st filter mask ty d s w l = true
      ∧ a = storedAt st ty d s w l := by
  obtain ⟨d, s, w, l, -, -, -, -, hm, ha'⟩ := buildCoordSet_mem ha
  have hl : laneAccept st filter mask d s w l = true := by
    simp only [laneMatches, Bool.and_eq_true] at hm
    exact hm.2
  obtain ⟨h1, h2, h3, h4⟩ := laneAccept_requires_valid_active hl hb
  exact ⟨d, s, w, l, h1, h2, h3, h4, hm, ha'⟩

/-- Witness for C10: with only `select_bkpt` set on a snapshot whose sole
lane is valid, active and at a breakpoint, the theorem applies to the
single member of the resulting set. -/
theorem coord_set_bkpt_excpt_trap_member_valid_active_witness :
    ∃ d s w l, dedupMissState.smValid d s = true
      ∧ dedupMissState.warpValid d s w = true
      ∧ dedupMissState.laneValid d s w l = true
      ∧ dedupMissState.laneActive d s w l = true
      ∧ laneMatches dedupMissState wildcardCoords bkptMask
          CoordSetType.lanes d s w l = true
      ∧ storedAt dedupMissState CoordSetType.lanes 0 0 1 0
          = storedAt dedupMissState CoordSetType.lanes d s w l :=
  coord_set_bkpt_excpt_trap_member_valid_active dedupMissState
    wildcardCoords bkptMask CoordSetType.lanes CompareType.physical none
    (Or.inl rfl) (storedAt dedupMissState CoordSetType.lanes 0 0 1 0)
    (by decide)

/-- C9.  Every stored coordinate has a concrete device index, at every
granularity; and the device field is the only field never wildcarded by
the output projection — at `devices` granularity every other physical and
logical field is replaced by the wildcard sentinel while the device is
kept. -/
theorem coord_set_device_always_concrete :
    (∀ (st : DeviceState) (filter : CudaCoords) (mask : SelectMask)
      (ty : CoordSetType) (ct : CompareType) (origin : Option CudaCoords)
      (a : CudaCoords), a ∈ buildCoordSet st filter mask ty ct origin →
      ∃ d, a.physical.dev = CoordVal.val d)
    ∧ (∀ (ty : CoordSetType) (d s w l : Nat) (kid gid : CoordVal)
        (cidx bidx tidx : CoordDim),
        (mkStored ty d s w l kid gid cidx bidx tidx).physical.dev
          = CoordVal.val d)
    ∧ (∀ (d s w l : Nat) (kid gid : CoordVal) (cidx bidx tidx : CoordDim),
        mkStored CoordSetType.devices d s w l kid gid cidx bidx tidx
          = ⟨⟨.val d, .wildcard, .wildcard, .wildcard⟩,
             ⟨.wildcard, .wildcard, .wildcard, .wildcard, .wildcard⟩⟩) := by
  refine ⟨?_, ?_, ?_⟩
  · intro st filter mask ty ct origin a ha
    obtain ⟨d, s, w, l, -, -, -, -, -, ha'⟩ := buildCoordSet_mem ha
    exact ⟨d, by rw [ha']; rfl⟩
  · intro ty d s w l kid gid cidx bidx tidx; rfl
  · intro d s w l kid gid cidx bidx tidx; rfl

/-- Witness for C9: the sole member of a concrete `sms`-granularity set
has a concrete device index. -/
theorem coord_set_device_always_concrete_witness :
    ∃ d, (⟨⟨.val 0, .val 0, .wildcard, .wildcard⟩,
      ⟨.val 7, .val 1, .wildcard, .wildcard, .wildcard⟩⟩
        : CudaCoords).physical.dev = CoordVal.val d :=
  coord_set_device_always_concrete.1 twoSmState wildcardCoords emptyMask
    CoordSetType.sms CompareType.logical none _ (by decide)

/-- C8.  The staleness filter is gated on timestamp validity: a warp or
lane is flagged out-of-date only when the provider reports its timestamp
valid and strictly older than the reference clock; when the timestamp is
reported invalid, the warp/lane gates with `select_current_clock` set
coincide with the gates without it, so the staleness filter never excludes
such a unit. -/
theorem staleness_gate_requires_valid_timestamp
    (st : DeviceState) (d s w l : Nat) :
    (warpOutdated st d s w = true
      ↔ st.warpTsValid d s w = true ∧ st.warpTs d s w < st.clock)
    ∧ (laneOutdated st d s w l = true
      ↔ st.laneTsValid d s w l = true ∧ st.laneTs d s w l < st.clock)
    ∧ (∀ (filter : CudaCoords) (mask : SelectMask) (ty : CoordSetType),
        st.warpTsValid d s w = false →
        warpAccept st filter mask ty d s w
          = warpAccept st filter { mask with atClock := false } ty d s w)
    ∧ (∀ (filter : CudaCoords) (mask : SelectMask),
        st.laneTsValid d s w l = false →
        laneAccept st filter mask d s w l
          = laneAccept st filter { mask with atClock := false } d s w l) := by
  refine ⟨?_, ?_, ?_, ?_⟩
  · simp [warpOutdated]
  · simp [laneOutdated]
  · intro filter mask ty h
    simp [warpAccept, warpOutdated, h]
  · intro filter mask h
    simp [laneAccept, laneOutdated, h]

/-- Witness for C8: on a snapshot reporting timestamps invalid, the warp
gate with `select_current_clock` set agrees with the gate without it. -/
theorem staleness_gate_requires_valid_timestamp_witness :
    warpAccept twoSmState wildcardCoords
        { emptyMask with atClock := true } CoordSetType.warps 0 0 0
      = warpAccept twoSmState wildcardCoords
          { { emptyMask with atClock := true } with atClock := false }
          CoordSetType.warps 0 0 0 :=
  (staleness_gate_requires_valid_timestamp twoSmState 0 0 0 0).2.2.1
    wildcardCoords { emptyMask with atClock := true } CoordSetType.warps
    (by decide)

/-! ### C5: at `sms` granularity each (device, SM) has at most one
representative -/

/-- At a granularity that breaks out of the lane loop after one store,
the lane loop either leaves the set untouched or performs exactly one
insertion. -/
theorem laneLoop_break_cases {st : DeviceState} {filter : CudaCoords}
    {mask : SelectMask} {ty : CoordSetType}
    {cmp : CudaCoords → CudaCoords → Bool} {d s w : Nat}
    (hbr : laneBreakAfterStore ty = true ∨ mask.single = true) :
    ∀ (lanes : List Nat) (coords : List CudaCoords),
    laneLoop st filter mask ty cmp d s w lanes coords = coords
    ∨ ∃ l, laneAccept st filter mask d s w l = true
        ∧ laneLoop st filter mask ty cmp d s w lanes coords
          = insertCoord cmp (storedAt st ty d s w l) coords := by
  intro lanes
  induction lanes with
  | nil => intro coords; exact Or.inl rfl
  | cons l rest ih =>
    intro coords
    simp only [laneLoop]
    by_cases hacc : laneAccept st filter mask d s w l = true
    · rw [if_pos hacc]
      by_cases hs : mask.single = true
      · rw [if_pos hs]; exact Or.inr ⟨l, hacc, rfl⟩
      · rcases hbr with hbr | hbr
        · rw [if_neg hs, if_pos hbr]; exact Or.inr ⟨l, hacc, rfl⟩
        · exact absurd hbr hs
    · rw [if_neg hacc]; exact ih coords

/-- At `sms` granularity the warp loop leaves the set untouched or
performs exactly one insertion from the SM it is scanning: any growth
breaks out of the loop immediately. -/
theorem warpLoop_sms_cases {st : DeviceState} {filter : CudaCoords}
    {mask : SelectMask} {cmp : CudaCoords → CudaCoords → Bool} {d s : Nat} :
    ∀ (ws : List Nat) (acc : BuildAcc),
    (warpLoop st filter mask CoordSetType.sms cmp d s ws acc).coords
      = acc.coords
    ∨ ∃ w l, (warpLoop st filter mask CoordSetType.sms cmp d s ws acc).coords
        = insertCoord cmp (storedAt st CoordSetType.sms d s w l)
            acc.coords := by
  intro ws
  induction ws with
  | nil => intro acc; exact Or.inl rfl
  | cons w rest ih =>
    intro acc
    simp only [warpLoop, dedupCheck]
    by_cases hacc : warpAccept st filter mask CoordSetType.sms d s w = true
    · rw [if_pos hacc]
      rcases @laneLoop_break_cases st filter mask CoordSetType.sms cmp
          d s w (Or.inl rfl) (List.range (st.numLanes d))
          acc.coords with heq | ⟨l, -, heq⟩
      · rw [heq]
        split
        · exact Or.inl rfl
        · split
          · next hgrow =>
            simp only [Bool.and_eq_true, decide_eq_true_eq] at hgrow
            omega
          · exact ih acc
      · rw [heq]
        rcases insertCoord_eq_or_splice cmp
            (storedAt st CoordSetType.sms d s w l) acc.coords with
          hins | ⟨l₁, l₂, hsplit, hins⟩
        · rw [hins]
          split
          · exact Or.inl rfl
          · split
            · next hgrow =>
              simp only [Bool.and_eq_true, decide_eq_true_eq] at hgrow
              omega
            · exact ih acc
        · split
          · exact Or.inr ⟨w, l, rfl⟩
          · split
            · exact Or.inr ⟨w, l, rfl⟩
            · next hgrow =>
              exfalso
              apply hgrow
              rw [hins, hsplit]
              simp
    · rw [if_neg hacc]; exact ih acc

/-- The membership predicate for a fixed (device, SM) pair. -/
def smPairP (d₀ s₀ : Nat) (c : CudaCoords) : Bool :=
  c.physical.dev == CoordVal.val d₀ && c.physical.sm == CoordVal.val s₀

theorem warpLoop_sms_countP {st : DeviceState} {filter : CudaCoords}
    {mask : SelectMask} {cmp : CudaCoords → CudaCoords → Bool}
    (d s d₀ s₀ : Nat) (ws : List Nat) (acc : BuildAcc) :
    ((warpLoop st filter mask CoordSetType.sms cmp d s ws acc).coords.countP
        (smPairP d₀ s₀))
      ≤ acc.coords.countP (smPairP d₀ s₀)
        + (if d = d₀ ∧ s = s₀ then 1 else 0) := by
  rcases warpLoop_sms_cases ws acc with heq | ⟨w, l, heq⟩
  · rw [heq]; omega
  · rw [heq]
    have hins := insertCoord_countP cmp
      (storedAt st CoordSetType.sms d s w l) acc.coords (smPairP d₀ s₀)
    by_cases hds : d = d₀ ∧ s = s₀
    · rw [if_pos hds]
      split at hins <;> omega
    · rw [if_neg hds]
      have hP : smPairP d₀ s₀ (storedAt st CoordSetType.sms d s w l)
          = false := by
        simp only [smPairP, storedAt, mkStored, storeSm, if_pos,
          Bool.and_eq_false_iff, beq_eq_false_iff_ne, ne_eq,
          CoordVal.val.injEq]
        by_cases hd : d = d₀
        · exact Or.inr (fun hs' => hds ⟨hd, hs'⟩)
        · exact Or.inl hd
      rw [hP] at hins
      simpa using hins

theorem smLoop_sms_countP {st : DeviceState} {filter : CudaCoords}
    {mask : SelectMask} {cmp : CudaCoords → CudaCoords → Bool}
    (d d₀ s₀ : Nat) :
    ∀ (sms : List Nat) (acc : BuildAcc),
    ((smLoop st filter mask CoordSetType.sms cmp d sms acc).coords.countP
        (smPairP d₀ s₀))
      ≤ acc.coords.countP (smPairP d₀ s₀)
        + (if d = d₀ then sms.count s₀ else 0) := by
  intro sms
  induction sms with
  | nil => intro acc; simp [smLoop]
  | cons s rest ih =>
    intro acc
    have hcount : (s :: rest).count s₀
        = rest.count s₀ + (if s = s₀ then 1 else 0) := by
      rw [List.count_cons]
      by_cases hs : s = s₀ <;> simp [hs]
    simp only [smLoop]
    by_cases hacc : smAccept st filter mask d s = true
    · rw [if_pos hacc]
      have hw := @warpLoop_sms_countP st filter mask cmp d s d₀ s₀
        (List.range (st.numWarps d)) acc
      have hone : (if d = d₀ ∧ s = s₀ then 1 else 0)
          ≤ (if d = d₀ then (s :: rest).count s₀ else 0) := by
        rw [hcount]
        by_cases hd : d = d₀ <;> by_cases hs : s = s₀ <;> simp [hd, hs]
      split
      · omega
      · split
        · omega
        · have hrec := ih ({ (warpLoop st filter mask CoordSetType.sms cmp
            d s (List.range (st.numWarps d)) acc) with
              coords := (warpLoop st filter mask CoordSetType.sms cmp d s
                (List.range (st.numWarps d)) acc).coords })
          have hrest : (if d = d₀ then rest.count s₀ else 0)
              + (if d = d₀ ∧ s = s₀ then 1 else 0)
              ≤ (if d = d₀ then (s :: rest).count s₀ else 0) := by
            rw [hcount]
            by_cases hd : d = d₀ <;> by_cases hs : s = s₀ <;>
              simp [hd, hs]
          calc ((smLoop st filter mask CoordSetType.sms cmp d rest
                (warpLoop st filter mask CoordSetType.sms cmp d s
                  (List.range (st.numWarps d)) acc)).coords.countP
                    (smPairP d₀ s₀))
              ≤ (warpLoop st filter mask CoordSetType.sms cmp d s
                  (List.range (st.numWarps d)) acc).coords.countP
                    (smPairP d₀ s₀)
                + (if d = d₀ then rest.count s₀ else 0) := ih _
            _ ≤ acc.coords.countP (smPairP d₀ s₀)
                + (if d = d₀ ∧ s = s₀ then 1 else 0)
                + (if d = d₀ then rest.count s₀ else 0) := by omega
            _ ≤ acc.coords.countP (smPairP d₀ s₀)
                + (if d = d₀ then (s :: rest).count s₀ else 0) := by omega
    · rw [if_neg hacc]
      have hrest : (if d = d₀ then rest.count s₀ else 0)
          ≤ (if d = d₀ then (s :: rest).count s₀ else 0) := by
        rw [hcount]
        by_cases hd : d = d₀ <;> simp [hd]
      have := ih acc
      omega

theorem count_range_le_one (n x : Nat) : (List.range n).count x ≤ 1 := by
  by_cases h : x ∈ List.range n
  · exact le_of_eq (List.count_eq_one_of_mem (List.nodup_range n) h)
  · rw [List.count_eq_zero.mpr h]
    omega

theorem devLoop_sms_countP {st : DeviceState} {filter : CudaCoords}
    {mask : SelectMask} {cmp : CudaCoords → CudaCoords → Bool}
    (d₀ s₀ : Nat) :
    ∀ (ds : List Nat) (acc : BuildAcc),
    ((devLoop st filter mask CoordSetType.sms cmp ds acc).coords.countP
        (smPairP d₀ s₀))
      ≤ acc.coords.countP (smPairP d₀ s₀) + ds.count d₀ := by
  intro ds
  induction ds with
  | nil => intro acc; simp [devLoop]
  | cons dv rest ih =>
    intro acc
    have hcount : (dv :: rest).count d₀
        = rest.count d₀ + (if dv = d₀ then 1 else 0) := by
      rw [List.count_cons]
      by_cases hd : dv = d₀ <;> simp [hd]
    have hsm := @smLoop_sms_countP st filter mask cmp dv d₀ s₀
      (List.range (st.numSms dv)) acc
    have hsm' : ((smLoop st filter mask CoordSetType.sms cmp dv
          (List.range (st.numSms dv)) acc).coords.countP (smPairP d₀ s₀))
        ≤ acc.coords.countP (smPairP d₀ s₀) + (if dv = d₀ then 1 else 0) := by
      by_cases hd : dv = d₀
      · subst hd
        have hr := count_range_le_one (st.numSms dv) s₀
        simp at hsm ⊢
        omega
      · simp [hd] at hsm ⊢
        omega
    simp only [devLoop]
    by_cases hacc : devAccept filter dv = true
    · rw [if_pos hacc]
      split
      · omega
      · have hrec := ih (smLoop st filter mask CoordSetType.sms cmp dv
          (List.range (st.numSms dv)) acc)
        omega
    · rw [if_neg hacc]
      have := ih acc
      omega

/-- At `sms` granularity the built set contains at most one member whose
device and SM fields are a given concrete pair. -/
theorem buildCoordSet_sms_countP (st : DeviceState) (filter : CudaCoords)
    (mask : SelectMask) (ct : CompareType) (origin : Option CudaCoords)
    (d₀ s₀ : Nat) :
    (buildCoordSet st filter mask CoordSetType.sms ct origin).countP
      (smPairP d₀ s₀) ≤ 1 := by
  have h := @devLoop_sms_countP st filter mask
    (coordCompare ct origin.isNone (origin.getD wildcardCoords)) d₀ s₀
    (List.range st.numDevices) ⟨[], [], []⟩
  have hr := count_range_le_one st.numDevices d₀
  simp only [buildCoordSet]
  simp at h
  omega

theorem countP_two_mem {l : List CudaCoords} {p : CudaCoords → Bool}
    {a b : CudaCoords} (ha : a ∈ l) (hb : b ∈ l) (hne : a ≠ b)
    (hpa : p a = true) (hpb : p b = true) : 2 ≤ l.countP p := by
  obtain ⟨l₁, l₂, rfl⟩ := List.append_of_mem ha
  have hsplit : (l₁ ++ a :: l₂).countP p
      = l₁.countP p + (l₂.countP p + 1) := by
    rw [List.countP_append, List.countP_cons, hpa]
    simp
  rw [hsplit]
  have hb' : b ∈ l₁ ∨ b ∈ l₂ := by
    rcases List.mem_append.mp hb with h | h
    · exact Or.inl h
    · rcases List.mem_cons.mp h with rfl | h'
      · exact absurd rfl hne
      · exact Or.inr h'
  rcases hb' with h | h
  · have : 0 < l₁.countP p := List.countP_pos_iff.mpr ⟨b, h, hpb⟩
    omega
  · have : 0 < l₂.countP p := List.countP_pos_iff.mpr ⟨b, h, hpb⟩
    omega

/-- C5 counterexample.  On a concrete snapshot (one device, two SMs, both
running kernel 7), the `sms`-granularity set stores its member with the
kernel id and grid id kept concrete (`storeKernel` is true at `sms`
granularity), not wildcarded as the claim states; moreover with the
default logical comparator the match on SM 1 is absorbed into SM 0's
entry, so a matching (device, SM) pair can end up with no representative
at all. -/
theorem coord_set_sms_wildcard_counterexample :
    buildCoordSet twoSmState wildcardCoords emptyMask CoordSetType.sms
        CompareType.logical none
      = [⟨⟨.val 0, .val 0, .wildcard, .wildcard⟩,
          ⟨.val 7, .val 1, .wildcard, .wildcard, .wildcard⟩⟩]
    ∧ laneMatches twoSmState wildcardCoords emptyMask CoordSetType.sms
        0 1 0 0 = true
    ∧ (∀ a ∈ buildCoordSet twoSmState wildcardCoords emptyMask
        CoordSetType.sms CompareType.logical none,
        a.logical.kernelId ≠ CoordVal.wildcard
        ∧ a.logical.gridId ≠ CoordVal.wildcard
        ∧ a.physical.sm ≠ CoordVal.val 1) := by
  refine ⟨by decide, by decide, by decide⟩

/-- C5 (amended).  At `sms` granularity every stored member wildcards the
warp, lane, cluster, block and thread fields and keeps concrete device and
SM indices (kernel id and grid id are retained as resolved, not
wildcarded); consequently the set never contains two distinct members
agreeing on device and SM — in particular no two members differ only in
warp or lane, and each (device, SM) pair has at most one representative. -/
theorem coord_set_sms_collapse_amended
    (st : DeviceState) (filter : CudaCoords) (mask : SelectMask)
    (ct : CompareType) (origin : Option CudaCoords) :
    (∀ a ∈ buildCoordSet st filter mask CoordSetType.sms ct origin,
      a.physical.wp = CoordVal.wildcard ∧ a.physical.ln = CoordVal.wildcard
      ∧ a.logical.clusterIdx = CoordDim.wildcard
      ∧ a.logical.blockIdx = CoordDim.wildcard
      ∧ a.logical.threadIdx = CoordDim.wildcard
      ∧ (∃ d, a.physical.dev = CoordVal.val d)
      ∧ (∃ s, a.physical.sm = CoordVal.val s))
    ∧ ∀ a ∈ buildCoordSet st filter mask CoordSetType.sms ct origin,
      ∀ b ∈ buildCoordSet st filter mask CoordSetType.sms ct origin,
      a.physical.dev = b.physical.dev → a.physical.sm = b.physical.sm →
      a = b := by
  constructor
  · intro a ha
    obtain ⟨d, s, w, l, -, -, -, -, -, ha'⟩ := buildCoordSet_mem ha
    rw [ha']
    exact ⟨rfl, rfl, rfl, rfl, rfl, ⟨d, rfl⟩, ⟨s, rfl⟩⟩
  · intro a ha b hb hdev hsm
    obtain ⟨d, s, w, l, -, -, -, -, -, ha'⟩ := buildCoordSet_mem ha
    by_contra hne
    have hpa : smPairP d s a = true := by
      rw [ha']
      simp [smPairP, storedAt, mkStored, storeSm]
    have hpb : smPairP d s b = true := by
      have h1 : b.physical.dev = CoordVal.val d := by rw [← hdev, ha']; rfl
      have h2 : b.physical.sm = CoordVal.val s := by rw [← hsm, ha']; rfl
      simp [smPairP, h1, h2]
    have h2 := countP_two_mem ha hb hne hpa hpb
    have h1 := buildCoordSet_sms_countP st filter mask ct origin d s
    omega

/-- Witness for the amended C5: on a concrete snapshot the single stored
member has wildcard warp and lane. -/
theorem coord_set_sms_collapse_amended_witness :
    (⟨⟨.val 0, .val 0, .wildcard, .wildcard⟩,
      ⟨.val 7, .val 1, .wildcard, .wildcard, .wildcard⟩⟩
        : CudaCoords).physical.wp = CoordVal.wildcard :=
  (((coord_set_sms_collapse_amended twoSmState wildcardCoords emptyMask
    CompareType.logical none).1 _ (by decide))).1

/-! ### C2: the `single` early exit -/

/-- With `single` set, once the set is nonempty every loop level unwinds,
so the lane loop is only ever entered on an empty set and the final size
is at most one. -/
theorem warpLoop_single_le_one {st : DeviceState} {filter : CudaCoords}
    {mask : SelectMask} {ty : CoordSetType}
    {cmp : CudaCoords → CudaCoords → Bool} {d s : Nat}
    (hs : mask.single = true) :
    ∀ (ws : List Nat) (acc : BuildAcc), acc.coords.length = 0 →
    (warpLoop st filter mask ty cmp d s ws acc).coords.length ≤ 1 := by
  intro ws
  induction ws with
  | nil => intro acc h; simp only [warpLoop]; omega
  | cons w rest ih =>
    intro acc h
    simp only [warpLoop]
    by_cases hacc : warpAccept st filter mask ty d s w = true
    · rw [if_pos hacc]
      split
      · exact ih _ h
      · next acc₁ heq =>
        have hc : acc₁.coords = acc.coords := dedupCheck_coords heq
        have hnil : acc₁.coords = [] := by
          rw [hc]; exact List.length_eq_zero.mp h
        rcases @laneLoop_break_cases st filter mask ty cmp d s w
            (Or.inr hs) (List.range (st.numLanes d)) acc₁.coords with
          heq2 | ⟨l, -, heq2⟩
        · rw [heq2, hnil]
          split
          · simp
          · split
            · simp
            · exact ih _ (by simp [hnil])
        · rw [heq2, hnil]
          split
          · simp [insertCoord]
          · next hcond =>
            exfalso
            apply hcond
            simp [hs, insertCoord]
    · rw [if_neg hacc]
      exact ih _ h

theorem smLoop_single_le_one {st : DeviceState} {filter : CudaCoords}
    {mask : SelectMask} {ty : CoordSetType}
    {cmp : CudaCoords → CudaCoords → Bool} {d : Nat}
    (hs : mask.single = true) :
    ∀ (sms : List Nat) (acc : BuildAcc), acc.coords.length = 0 →
    (smLoop st filter mask ty cmp d sms acc).coords.length ≤ 1 := by
  intro sms
  induction sms with
  | nil => intro acc h; simp only [smLoop]; omega
  | cons s' rest ih =>
    intro acc h
    simp only [smLoop]
    by_cases hacc : smAccept st filter mask d s' = true
    · rw [if_pos hacc]
      have hw := @warpLoop_single_le_one st filter mask ty cmp d s' hs
        (List.range (st.numWarps d)) acc h
      split
      · exact hw
      · next hcond1 =>
        split
        · exact hw
        · refine ih _ ?_
          by_contra hne
          apply hcond1
          simp only [hs, Bool.true_and, decide_eq_true_eq]
          omega
    · rw [if_neg hacc]
      exact ih _ h

theorem devLoop_single_le_one {st : DeviceState} {filter : CudaCoords}
    {mask : SelectMask} {ty : CoordSetType}
    {cmp : CudaCoords → CudaCoords → Bool}
    (hs : mask.single = true) :
    ∀ (ds : List Nat) (acc : BuildAcc), acc.coords.length = 0 →
    (devLoop st filter mask ty cmp ds acc).coords.length ≤ 1 := by
  intro ds
  induction ds with
  | nil => intro acc h; simp only [devLoop]; omega
  | cons dv rest ih =>
    intro acc h
    simp only [devLoop]
    by_cases hacc : devAccept filter dv = true
    · rw [if_pos hacc]
      have hsm := @smLoop_single_le_one st filter mask ty cmp dv hs
        (List.range (st.numSms dv)) acc h
      split
      · exact hsm
      · next hcond1 =>
        refine ih _ ?_
        by_contra hne
        apply hcond1
        simp only [hs, Bool.true_and, decide_eq_true_eq]
        omega
    · rw [if_neg hacc]
      exact ih _ h

/-! ### C2: reachability — members survive, and a match guarantees a
nonempty result (granularities without construction-local dedup) -/

theorem laneLoop_mem_mono {st : DeviceState} {filter : CudaCoords}
    {mask : SelectMask} {ty : CoordSetType}
    {cmp : CudaCoords → CudaCoords → Bool} {d s w : Nat} :
    ∀ {lanes : List Nat} {coords : List CudaCoords} {a : CudaCoords},
    a ∈ coords → a ∈ laneLoop st filter mask ty cmp d s w lanes coords := by
  intro lanes
  induction lanes with
  | nil => intro coords a h; exact h
  | cons l rest ih =>
    intro coords a h
    simp only [laneLoop]
    by_cases hacc : laneAccept st filter mask d s w l = true
    · rw [if_pos hacc]
      split
      · exact mem_insertCoord_of_mem h
      · split
        · exact mem_insertCoord_of_mem h
        · exact ih (mem_insertCoord_of_mem h)
    · rw [if_neg hacc]
      exact ih h

theorem warpLoop_mem_mono {st : DeviceState} {filter : CudaCoords}
    {mask : SelectMask} {ty : CoordSetType}
    {cmp : CudaCoords → CudaCoords → Bool} {d s : Nat} :
    ∀ {ws : List Nat} {acc : BuildAcc} {a : CudaCoords},
    a ∈ acc.coords → a ∈ (warpLoop st filter mask ty cmp d s ws acc).coords := by
  intro ws
  induction ws with
  | nil => intro acc a h; exact h
  | cons w rest ih =>
    intro acc a h
    simp only [warpLoop]
    by_cases hacc : warpAccept st filter mask ty d s w = true
    · rw [if_pos hacc]
      split
      · exact ih h
      · next acc₁ heq =>
        have hc : acc₁.coords = acc.coords := dedupCheck_coords heq
        have h₁ : a ∈ acc₁.coords := hc ▸ h
        split
        · exact laneLoop_mem_mono h₁
        · split
          · exact laneLoop_mem_mono h₁
          · exact ih (laneLoop_mem_mono h₁)
    · rw [if_neg hacc]
      exact ih h

theorem smLoop_mem_mono {st : DeviceState} {filter : CudaCoords}
    {mask : SelectMask} {ty : CoordSetType}
    {cmp : CudaCoords → CudaCoords → Bool} {d : Nat} :
    ∀ {sms : List Nat} {acc : BuildAcc} {a : CudaCoords},
    a ∈ acc.coords → a ∈ (smLoop st filter mask ty cmp d sms acc).coords := by
  intro sms
  induction sms with
  | nil => intro acc a h; exact h
  | cons s rest ih =>
    intro acc a h
    simp only [smLoop]
    by_cases hacc : smAccept st filter mask d s = true
    · rw [if_pos hacc]
      split
      · exact warpLoop_mem_mono h
      · split
        · exact warpLoop_mem_mono h
        · exact ih (warpLoop_mem_mono h)
    · rw [if_neg hacc]
      exact ih h

theorem laneLoop_reach {st : DeviceState} {filter : CudaCoords}
    {mask : SelectMask} {ty : CoordSetType}
    {cmp : CudaCoords → CudaCoords → Bool} {d s w : Nat} :
    ∀ {lanes : List Nat} {coords : List CudaCoords},
    (∃ l ∈ lanes, laneAccept st filter mask d s w l = true) →
    laneLoop st filter mask ty cmp d s w lanes coords ≠ [] := by
  intro lanes
  induction lanes with
  | nil => rintro coords ⟨l, hl, -⟩; cases hl
  | cons l rest ih =>
    rintro coords ⟨l', hl', hacc'⟩
    simp only [laneLoop]
    by_cases hacc : laneAccept st filter mask d s w l = true
    · rw [if_pos hacc]
      split
      · exact insertCoord_ne_nil _ _ _
      · split
        · exact insertCoord_ne_nil _ _ _
        · intro hnil
          obtain ⟨a, ha⟩ := List.exists_mem_of_ne_nil _
            (insertCoord_ne_nil cmp (storedAt st ty d s w l) coords)
          rw [List.eq_nil_iff_forall_not_mem] at hnil
          exact hnil a (laneLoop_mem_mono ha)
    · rw [if_neg hacc]
      rcases List.mem_cons.mp hl' with rfl | hl''
      · exact absurd hacc' hacc
      · exact ih ⟨l', hl'', hacc'⟩

/-- Granularities other than `kernels`/`blocks` never consult the dedup
sets. -/
theorem dedupCheck_id {ty : CoordSetType} {kid : CoordVal} {bidx : CoordDim}
    (h1 : ty ≠ CoordSetType.kernels) (h2 : ty ≠ CoordSetType.blocks)
    (acc : BuildAcc) : dedupCheck ty kid bidx acc = some acc := by
  cases ty <;> simp [dedupCheck] at h1 h2 ⊢

theorem warpLoop_reach {st : DeviceState} {filter : CudaCoords}
    {mask : SelectMask} {ty : CoordSetType}
    {cmp : CudaCoords → CudaCoords → Bool} {d s : Nat}
    (h1 : ty ≠ CoordSetType.kernels) (h2 : ty ≠ CoordSetType.blocks) :
    ∀ {ws : List Nat} {acc : BuildAcc},
    (∃ w ∈ ws, warpAccept st filter mask ty d s w = true
      ∧ ∃ l ∈ List.range (st.numLanes d),
          laneAccept st filter mask d s w l = true) →
    (warpLoop st filter mask ty cmp d s ws acc).coords ≠ [] := by
  intro ws
  induction ws with
  | nil => rintro acc ⟨w, hw, -⟩; cases hw
  | cons w rest ih =>
    rintro acc ⟨w', hw', hacc', hlane'⟩
    simp only [warpLoop]
    by_cases hacc : warpAccept st filter mask ty d s w = true
    · rw [if_pos hacc]
      split
      · next heqd =>
        rw [dedupCheck_id h1 h2 acc] at heqd
        exact Option.noConfusion heqd
      · next acc₁ heqd =>
        rw [dedupCheck_id h1 h2 acc] at heqd
        injection heqd with heqd
        subst heqd
        rcases List.mem_cons.mp hw' with rfl | hw''
        · have hll : laneLoop st filter mask ty cmp d s w'
              (List.range (st.numLanes d)) acc.coords ≠ [] :=
            laneLoop_reach hlane'
          split
          · exact hll
          · split
            · exact hll
            · intro hnil
              obtain ⟨a, ha⟩ := List.exists_mem_of_ne_nil _ hll
              rw [List.eq_nil_iff_forall_not_mem] at hnil
              exact hnil a (warpLoop_mem_mono ha)
        · split
          · next hcond =>
            simp only [Bool.and_eq_true, decide_eq_true_eq] at hcond
            intro hnil
            have hnil' : laneLoop st filter mask ty cmp d s w
                (List.range (st.numLanes d)) acc.coords = [] := hnil
            rw [hnil'] at hcond
            simp at hcond
          · split
            · next hcond =>
              simp only [Bool.and_eq_true, decide_eq_true_eq] at hcond
              intro hnil
              have hnil' : laneLoop st filter mask ty cmp d s w
                  (List.range (st.numLanes d)) acc.coords = [] := hnil
              rw [hnil'] at hcond
              simp at hcond
            · exact ih ⟨w', hw'', hacc', hlane'⟩
    · rw [if_neg hacc]
      rcases List.mem_cons.mp hw' with rfl | hw''
      · exact absurd hacc' hacc
      · exact ih ⟨w', hw'', hacc', hlane'⟩

theorem smLoop_reach {st : DeviceState} {filter : CudaCoords}
    {mask : SelectMask} {ty : CoordSetType}
    {cmp : CudaCoords → CudaCoords → Bool} {d : Nat}
    (h1 : ty ≠ CoordSetType.kernels) (h2 : ty ≠ CoordSetType.blocks) :
    ∀ {sms : List Nat} {acc : BuildAcc},
    (∃ s ∈ sms, smAccept st filter mask d s = true
      ∧ ∃ w ∈ List.range (st.numWarps d),
          warpAccept st filter mask ty d s w = true
          ∧ ∃ l ∈ List.range (st.numLanes d),
              laneAccept st filter mask d s w l = true) →
    (smLoop st filter mask ty cmp d sms acc).coords ≠ [] := by
  intro sms
  induction sms with
  | nil => rintro acc ⟨s, hsm, -⟩; cases hsm
  | cons s rest ih =>
    rintro acc ⟨s', hs', hacc', hrest'⟩
    simp only [smLoop]
    by_cases hacc : smAccept st filter mask d s = true
    · rw [if_pos hacc]
      rcases List.mem_cons.mp hs' with rfl | hs''
      · have hwl : (warpLoop st filter mask ty cmp d s'
            (List.range (st.numWarps d)) acc).coords ≠ [] :=
          warpLoop_reach h1 h2 hrest'
        split
        · exact hwl
        · split
          · exact hwl
          · intro hnil
            obtain ⟨a, ha⟩ := List.exists_mem_of_ne_nil _ hwl
            rw [List.eq_nil_iff_forall_not_mem] at hnil
            exact hnil a (smLoop_mem_mono ha)
      · split
        · next hcond =>
          simp only [Bool.and_eq_true, decide_eq_true_eq] at hcond
          intro hnil
          rw [hnil] at hcond
          simp at hcond
        · split
          · next hcond =>
            simp only [Bool.and_eq_true, decide_eq_true_eq] at hcond
            intro hnil
            rw [hnil] at hcond
            simp at hcond
          · exact ih ⟨s', hs'', hacc', hrest'⟩
    · rw [if_neg hacc]
      rcases List.mem_cons.mp hs' with rfl | hs''
      · exact absurd hacc' hacc
      · exact ih ⟨s', hs'', hacc', hrest'⟩

theorem devLoop_mem_mono {st : DeviceState} {filter : CudaCoords}
    {mask : SelectMask} {ty : CoordSetType}
    {cmp : CudaCoords → CudaCoords → Bool} :
    ∀ {ds : List Nat} {acc : BuildAcc} {a : CudaCoords},
    a ∈ acc.coords → a ∈ (devLoop st filter mask ty cmp ds acc).coords := by
  intro ds
  induction ds with
  | nil => intro acc a h; exact h
  | cons dv rest ih =>
    intro acc a h
    simp only [devLoop]
    by_cases hacc : devAccept filter dv = true
    · rw [if_pos hacc]
      split
      · exact smLoop_mem_mono h
      · exact ih (smLoop_mem_mono h)
    · rw [if_neg hacc]
      exact ih h

theorem devLoop_reach {st : DeviceState} {filter : CudaCoords}
    {mask : SelectMask} {ty : CoordSetType}
    {cmp : CudaCoords → CudaCoords → Bool}
    (h1 : ty ≠ CoordSetType.kernels) (h2 : ty ≠ CoordSetType.blocks) :
    ∀ {ds : List Nat} {acc : BuildAcc},
    (∃ dv ∈ ds, devAccept filter dv = true
      ∧ ∃ s ∈ List.range (st.numSms dv), smAccept st filter mask dv s = true
        ∧ ∃ w ∈ List.range (st.numWarps dv),
            warpAccept st filter mask ty dv s w = true
            ∧ ∃ l ∈ List.range (st.numLanes dv),
                laneAccept st filter mask dv s w l = true) →
    (devLoop st filter mask ty cmp ds acc).coords ≠ [] := by
  intro ds
  induction ds with
  | nil => rintro acc ⟨dv, hdv, -⟩; cases hdv
  | cons dv rest ih =>
    rintro acc ⟨dv', hdv', hacc', hrest'⟩
    simp only [devLoop]
    by_cases hacc : devAccept filter dv = true
    · rw [if_pos hacc]
      rcases List.mem_cons.mp hdv' with rfl | hdv''
      · have hsl : (smLoop st filter mask ty cmp dv'
            (List.range (st.numSms dv')) acc).coords ≠ [] :=
          smLoop_reach h1 h2 hrest'
        split
        · exact hsl
        · intro hnil
          obtain ⟨a, ha⟩ := List.exists_mem_of_ne_nil _ hsl
          rw [List.eq_nil_iff_forall_not_mem] at hnil
          exact hnil a (devLoop_mem_mono ha)
      · split
        · next hcond =>
          simp only [Bool.and_eq_true, decide_eq_true_eq] at hcond
          intro hnil
          rw [hnil] at hcond
          simp at hcond
        · exact ih ⟨dv', hdv'', hacc', hrest'⟩
    · rw [if_neg hacc]
      rcases List.mem_cons.mp hdv' with rfl | hdv''
      · exact absurd hacc' hacc
      · exact ih ⟨dv', hdv'', hacc', hrest'⟩

/-- C2 counterexample.  At `kernels` granularity with `select_sngl` (and
`select_active`), a concrete snapshot with two warps of the same kernel —
the first with no active lane, the second with one — yields an empty set
even though a coordinate matches the filter and the predicate bits: warp 0
registers kernel 7 in the construction-local dedup set before any lane
check, so warp 1 is skipped and its match is never stored.  The claim's
"size() == 1 whenever at least one coordinate matches" is false as
stated. -/
theorem coord_set_single_dedup_counterexample :
    buildCoordSet dedupMissState wildcardCoords singleActiveMask
        CoordSetType.kernels CompareType.logical none = []
    ∧ laneMatches dedupMissState wildcardCoords singleActiveMask
        CoordSetType.kernels 0 0 1 0 = true
    ∧ 0 < dedupMissState.numDevices ∧ 0 < dedupMissState.numSms 0
    ∧ 1 < dedupMissState.numWarps 0 ∧ 0 < dedupMissState.numLanes 0 := by
  exact ⟨by decide, by decide, by decide, by decide, by decide, by decide⟩

/-- C2 (amended).  With `select_sngl` set the constructed set always has
at most one member; it is empty when no coordinate matches the filter and
predicate bits (any granularity); and at the granularities without
construction-local deduplication — devices, sms, warps, lanes, threads —
it has exactly one member whenever a match exists, regardless of how many
matches would exist without the flag.  (At `kernels`/`blocks` granularity
a warp can register its kernel or block in the dedup set without storing a
member, hiding a later match, as the counterexample shows.) -/
theorem coord_set_single_match_amended
    (st : DeviceState) (filter : CudaCoords) (mask : SelectMask)
    (ty : CoordSetType) (ct : CompareType) (origin : Option CudaCoords)
    (hs : mask.single = true) :
    (buildCoordSet st filter mask ty ct origin).length ≤ 1
    ∧ ((¬ ∃ d s w l, d < st.numDevices ∧ s < st.numSms d ∧ w < st.numWarps d
        ∧ l < st.numLanes d ∧ laneMatches st filter mask ty d s w l = true) →
      buildCoordSet st filter mask ty ct origin = [])
    ∧ (ty ≠ CoordSetType.kernels → ty ≠ CoordSetType.blocks →
      (∃ d s w l, d < st.numDevices ∧ s < st.numSms d ∧ w < st.numWarps d
        ∧ l < st.numLanes d ∧ laneMatches st filter mask ty d s w l = true) →
      (buildCoordSet st filter mask ty ct origin).length = 1) := by
  have hle : (buildCoordSet st filter mask ty ct origin).length ≤ 1 :=
    @devLoop_single_le_one st filter mask ty
      (coordCompare ct origin.isNone (origin.getD wildcardCoords)) hs
      (List.range st.numDevices) ⟨[], [], []⟩ rfl
  refine ⟨hle, ?_, ?_⟩
  · intro hno
    by_contra hne
    obtain ⟨a, ha⟩ := List.exists_mem_of_ne_nil _ hne
    obtain ⟨d, s, w, l, hd, hsm, hw, hl, hm, -⟩ := buildCoordSet_mem ha
    exact hno ⟨d, s, w, l, hd, hsm, hw, hl, hm⟩
  · rintro h1 h2 ⟨d, s, w, l, hd, hsm, hw, hl, hm⟩
    simp only [laneMatches, Bool.and_eq_true] at hm
    have hne : buildCoordSet st filter mask ty ct origin ≠ [] :=
      @devLoop_reach st filter mask ty
        (coordCompare ct origin.isNone (origin.getD wildcardCoords)) h1 h2
        (List.range st.numDevices) ⟨[], [], []⟩
        ⟨d, List.mem_range.mpr hd, hm.1.1.1,
          s, List.mem_range.mpr hsm, hm.1.1.2,
          w, List.mem_range.mpr hw, hm.1.2,
          l, List.mem_range.mpr hl, hm.2⟩
    have hpos : 0 < (buildCoordSet st filter mask ty ct origin).length :=
      List.length_pos.mpr hne
    omega

/-- Witness for the amended C2: at `lanes` granularity on a concrete
snapshot with a matching active lane, the single-flag set has exactly one
member. -/
theorem coord_set_single_match_amended_witness :
    (buildCoordSet twoSmState wildcardCoords singleActiveMask
      CoordSetType.lanes CompareType.physical none).length = 1 :=
  (coord_set_single_match_amended twoSmState wildcardCoords
    singleActiveMask CoordSetType.lanes CompareType.physical none
    rfl).2.2 (by decide) (by decide)
    ⟨0, 0, 0, 0, by decide, by decide, by decide, by decide, by decide⟩

/-- C7.  Coordinate-set construction is deterministic: construction is a
pure function of the provider snapshot and the inputs, and two provider
snapshots that answer every topology and predicate query identically give
rise to identical ordered member sequences for the same filter, predicate
mask, granularity, compare mode and origin. -/
theorem coord_set_deterministic
    (st₁ st₂ : DeviceState) (filter : CudaCoords) (mask : SelectMask)
    (ty : CoordSetType) (ct : CompareType) (origin : Option CudaCoords)
    (h1 : st₁.numDevices = st₂.numDevices)
    (h2 : ∀ d, st₁.numSms d = st₂.numSms d)
    (h3 : ∀ d, st₁.numWarps d = st₂.numWarps d)
    (h4 : ∀ d, st₁.numLanes d = st₂.numLanes d)
    (h5 : ∀ d s, st₁.smValid d s = st₂.smValid d s)
    (h6 : ∀ d s, st₁.smException d s = st₂.smException d s)
    (h7 : ∀ d s w, st₁.warpValid d s w = st₂.warpValid d s w)
    (h8 : ∀ d s w, st₁.warpBroken d s w = st₂.warpBroken d s w)
    (h9 : ∀ d s w, st₁.warpTsValid d s w = st₂.warpTsValid d s w)
    (h10 : ∀ d s w, st₁.warpTs d s w = st₂.warpTs d s w)
    (h11 : ∀ d s w, st₁.warpKernelId d s w = st₂.warpKernelId d s w)
    (h12 : ∀ d s w, st₁.warpClusterDim d s w = st₂.warpClusterDim d s w)
    (h13 : ∀ d s w, st₁.warpClusterIdx d s w = st₂.warpClusterIdx d s w)
    (h14 : ∀ d s w, st₁.warpGridId d s w = st₂.warpGridId d s w)
    (h15 : ∀ d s w, st₁.warpBlockIdx d s w = st₂.warpBlockIdx d s w)
    (h16 : ∀ d s w l, st₁.laneValid d s w l = st₂.laneValid d s w l)
    (h17 : ∀ d s w l, st₁.laneActive d s w l = st₂.laneActive d s w l)
    (h18 : ∀ d s w l, st₁.laneTsValid d s w l = st₂.laneTsValid d s w l)
    (h19 : ∀ d s w l, st₁.laneTs d s w l = st₂.laneTs d s w l)
    (h20 : ∀ d s w l, st₁.laneException d s w l = st₂.laneException d s w l)
    (h21 : ∀ d s w l, st₁.laneThreadIdx d s w l = st₂.laneThreadIdx d s w l)
    (h22 : ∀ d s w l, st₁.lanePc d s w l = st₂.lanePc d s w l)
    (h23 : ∀ pc, st₁.bpHere pc = st₂.bpHere pc)
    (h24 : st₁.clock = st₂.clock) :
    buildCoordSet st₁ filter mask ty ct origin
      = buildCoordSet st₂ filter mask ty ct origin := by
  have hst : st₁ = st₂ := by
    cases st₁
    cases st₂
    simp only [DeviceState.mk.injEq]
    refine ⟨h1, funext h2, funext h3, funext h4,
      funext fun d => funext (h5 d),
      funext fun d => funext (h6 d),
      funext fun d => funext fun s => funext (h7 d s),
      funext fun d => funext fun s => funext (h8 d s),
      funext fun d => funext fun s => funext (h9 d s),
      funext fun d => funext fun s => funext (h10 d s),
      funext fun d => funext fun s => funext (h11 d s),
      funext fun d => funext fun s => funext (h12 d s),
      funext fun d => funext fun s => funext (h13 d s),
      funext fun d => funext fun s => funext (h14 d s),
      funext fun d => funext fun s => funext (h15 d s),
      funext fun d => funext fun s => funext fun w => funext (h16 d s w),
      funext fun d => funext fun s => funext fun w => funext (h17 d s w),
      funext fun d => funext fun s => funext fun w => funext (h18 d s w),
      funext fun d => funext fun s => funext fun w => funext (h19 d s w),
      funext fun d => funext fun s => funext fun w => funext (h20 d s w),
      funext fun d => funext fun s => funext fun w => funext (h21 d s w),
      funext fun d => funext fun s => funext fun w => funext (h22 d s w),
      funext h23, h24⟩
  rw [hst]

/-- Witness for C7: the same concrete snapshot queried twice yields the
same ordered sequence. -/
theorem coord_set_deterministic_witness :
    buildCoordSet twoSmState wildcardCoords emptyMask CoordSetType.sms
        CompareType.logical none
      = buildCoordSet twoSmState wildcardCoords emptyMask CoordSetType.sms
          CompareType.logical none :=
  coord_set_deterministic twoSmState twoSmState wildcardCoords emptyMask
    CoordSetType.sms CompareType.logical none rfl
    (fun _ => rfl) (fun _ => rfl) (fun _ => rfl)
    (fun _ _ => rfl) (fun _ _ => rfl)
    (fun _ _ _ => rfl) (fun _ _ _ => rfl) (fun _ _ _ => rfl)
    (fun _ _ _ => rfl) (fun _ _ _ => rfl) (fun _ _ _ => rfl)
    (fun _ _ _ => rfl) (fun _ _ _ => rfl) (fun _ _ _ => rfl)
    (fun _ _ _ _ => rfl) (fun _ _ _ _ => rfl) (fun _ _ _ _ => rfl)
    (fun _ _ _ _ => rfl) (fun _ _ _ _ => rfl) (fun _ _ _ _ => rfl)
    (fun _ _ _ _ => rfl) (fun _ => rfl) rfl

end CudaGdb
